import Mathlib

/-!
# Verification of the ESG-Claude response-recovery and normalization core

This file gives a shallow embedding, in Lean 4, of the core pure logic of the
ESG-Claude repository:

* the JSON value universe produced by `JSON.parse` and manipulated by the
  extractor (`JsonValue`, JavaScript objects as ordered association lists);
* the retry/backoff combinator `retryWithBackoff` of `claude-extractor.js`
  together with `isRetryableError` of `lib/error-handler.js`;
* a strict JSON parser modelling `JSON.parse`;
* the JSON-recovery cascade of `extractDataFromUrl` (strategies 1-4) and the
  shared fallback `parseJSON` of `lib/error-handler.js`;
* the schema-normalization post-processing of `extractDataFromUrl`
  (company-details synthesis, carbon-footprint matrix migration and fill,
  per-criterion placeholder insertion);
* the batch-eligibility partition of `createBatchExtractionRequest` in
  `claude-batch-extractor.js` together with the URL classifiers of `utils.js`;
* the bounded-concurrency mapper `concurrentMap` of `utils.js`.

Modelling conventions: machine behaviour that can throw (strict-mode property
assignment on a non-object, calling `.match`/`.replace` on a non-string) is
modelled with `Option`, `none` standing for a thrown `TypeError`; JavaScript
truthiness is the function `jTruthy`; JSON numbers are kept as their raw
literal text (no claim in scope compares numeric values); `\uXXXX` escapes
denoting surrogate code units are rejected by the model parser (Lean strings
cannot hold lone surrogates).  JavaScript string indices are UTF-16 code
units; the model uses code points, which agree on the ASCII inputs used in
all concrete evaluations below.
-/

namespace ESG

/-- A JSON value as produced by `JSON.parse`, with JavaScript objects kept as
ordered association lists (JavaScript preserves insertion order of string
keys).  Numbers are carried as their raw literal text. -/
inductive JsonValue where
  | null : JsonValue
  | bool (b : Bool) : JsonValue
  | num (raw : String) : JsonValue
  | str (s : String) : JsonValue
  | arr (elems : List JsonValue) : JsonValue
  | obj (fields : List (String × JsonValue)) : JsonValue
deriving Repr

/-- A JavaScript object: an ordered association list of fields. -/
abbrev Obj := List (String × JsonValue)

/-- Does the raw text of a JSON numeric literal denote a nonzero number?
A JSON number is zero exactly when every digit of its integer and fraction
parts is `0`; any digit `1`-`9` before the exponent marker makes it nonzero. -/
def numLiteralNonzero (raw : String) : Bool :=
  (raw.takeWhile (fun c => c ≠ 'e' ∧ c ≠ 'E')).any (fun c => '1' ≤ c ∧ c ≤ '9')

/-- JavaScript truthiness of a JSON value: `null`, `false`, `0` and `""` are
falsy; every array and object (even empty) is truthy. -/
def jTruthy : JsonValue → Bool
  | .null => false
  | .bool b => b
  | .num raw => numLiteralNonzero raw
  | .str s => s ≠ ""
  | .arr _ => true
  | .obj _ => true

/-- Truthiness of a property-read result: reading an absent property yields
`undefined`, which is falsy. -/
def jTruthyOpt : Option JsonValue → Bool
  | none => false
  | some v => jTruthy v

/-- Property read `o[k]`: the first field named `k` (JavaScript objects have
unique keys, making the first match the only one). -/
def getField : Obj → String → Option JsonValue
  | [], _ => none
  | (k', v) :: rest, k => if k' = k then some v else getField rest k

/-- Property write `o[k] = v`: replaces the value of the first field named
`k` in place (JavaScript keeps the original insertion position on
re-assignment), or appends the field if absent. -/
def setField : Obj → String → JsonValue → Obj
  | [], k, v => [(k, v)]
  | (k', v') :: rest, k, v =>
      if k' = k then (k', v) :: rest else (k', v') :: setField rest k v

/-- Property removal `delete o[k]`. -/
def delField : Obj → String → Obj
  | [], _ => []
  | (k', v') :: rest, k =>
      if k' = k then delField rest k else (k', v') :: delField rest k

/-- The JavaScript string coalescing idiom `a || b` for strings: `a` when it
is truthy (nonempty), otherwise `b`. -/
def jsOrStr (a b : String) : String :=
  if a ≠ "" then a else b

/-! ## JavaScript string helpers -/

/-- The whitespace class used to model both the `\s` regex class and
`String.prototype.trim` (the common ASCII members plus no-break space). -/
def jsIsWs (c : Char) : Bool :=
  c = ' ' ∨ c = '\t' ∨ c = '\n' ∨ c = '\r' ∨ c = '\x0b' ∨ c = '\x0c' ∨ c = '\xa0'

/-- `String.prototype.trim`. -/
def jsTrim (s : String) : String :=
  ⟨(s.data.dropWhile jsIsWs).reverse.dropWhile jsIsWs |>.reverse⟩

/-- Does `l` start with `p`? -/
def listHasPre : List Char → List Char → Bool
  | [], _ => true
  | _ :: _, [] => false
  | p :: ps, c :: cs => p = c && listHasPre ps cs

/-- Does `l` contain `p` as a contiguous run (`String.prototype.includes`)? -/
def listHasSub (p : List Char) : List Char → Bool
  | [] => listHasPre p []
  | c :: cs => listHasPre p (c :: cs) || listHasSub p cs

/-- `String.prototype.includes`. -/
def strIncludes (hay needle : String) : Bool :=
  listHasSub needle.data hay.data

/-- `String.prototype.startsWith`, on the character list so it reduces
structurally. -/
def strStarts (s p : String) : Bool :=
  listHasPre p.data s.data

/-- `String.prototype.endsWith`, on the reversed character lists. -/
def strEnds (s p : String) : Bool :=
  listHasPre p.data.reverse s.data.reverse

/-- ASCII lower-casing, modelling `String.prototype.toLowerCase` on the URL
and industry strings in scope (which are ASCII). -/
def asciiLower (s : String) : String :=
  ⟨s.data.map (fun c => if 'A' ≤ c ∧ c ≤ 'Z' then Char.ofNat (c.toNat + 32) else c)⟩

/-- `url.split('?')[0]`: the part of the string before the first `?`. -/
def beforeQuery (s : String) : String :=
  ⟨s.data.takeWhile (fun c => c ≠ '?')⟩

/-! ## Error classification and the backoff invoker
(`lib/error-handler.js` lines 17-31, `claude-extractor.js` lines 34-56) -/

/-- The shape of a thrown API error as inspected by `error-handler.js`:
`error.error?.type` and `error.message` (either may be absent). -/
structure JsError where
  errType : Option String
  message : Option String
deriving Repr, DecidableEq

/-- The rate-limit/overload classification inside `isRetryableError`:
`error.error?.type === 'overloaded_error' || error.message?.includes('429')
|| error.message?.includes('overloaded') || error.message?.includes('rate
limit')`; an absent message contributes `undefined`, which is falsy. -/
def isOverloadedError (e : JsError) : Bool :=
  decide (e.errType = some "overloaded_error") ||
    (match e.message with
      | none => false
      | some m => strIncludes m "429" || strIncludes m "overloaded" ||
          strIncludes m "rate limit")

/-- `isRetryableError(error, retryCount, maxRetries)` from
`lib/error-handler.js`: false once `retryCount >= maxRetries`, otherwise the
overload classification. -/
def isRetryableError (e : JsError) (retryCount maxRetries : Nat) : Bool :=
  if maxRetries ≤ retryCount then false else isOverloadedError e

/-- The observable trace of one `retryWithBackoff` invocation: how many times
`fn` was called, the argument of each `sleep` in order, and the final
outcome.  `outcome = none` marks the unreachable fuel-exhaustion row of
`retryAux`. -/
structure RetryTrace (α : Type) where
  attempts : Nat
  sleeps : List Nat
  outcome : Option (Except JsError α)
deriving Repr

/-- The loop body of `retryWithBackoff`.  `fn i` is the result of the `i`-th
call of the wrapped operation (0-based) and `jit i` the value of
`Math.floor(Math.random() * 1000)` drawn after the `i`-th failed call; `i`
doubles as the current value of the `retries` counter at loop entry.  The
structural `fuel` argument only serves termination: the top-level entry
passes `maxRetries + 1`, which the loop can never exhaust because it only
continues while `retries <= maxRetries`. -/
def retryAux {α : Type} (fn : Nat → Except JsError α) (jit : Nat → Nat)
    (maxRetries : Nat) :
    Nat → Nat → Nat → List Nat → RetryTrace α
  | 0, i, _, sleepAcc => ⟨i, sleepAcc.reverse, none⟩
  | fuel + 1, i, delay, sleepAcc =>
      match fn i with
      | .ok a => ⟨i + 1, sleepAcc.reverse, some (.ok a)⟩
      | .error e =>
          if maxRetries < i + 1 ∨ isRetryableError e (i + 1) maxRetries = false then
            ⟨i + 1, sleepAcc.reverse, some (.error e)⟩
          else
            retryAux fn jit maxRetries fuel (i + 1) (2 * delay + jit i)
              (delay :: sleepAcc)

/-- `retryWithBackoff(fn, maxRetries, initialDelay)` from
`claude-extractor.js`, as the trace of attempts, sleeps and final outcome.
On failure the code increments `retries`, throws when `retries > maxRetries
|| !isRetryableError(error, retries, maxRetries)`, and otherwise sleeps
`delay` ms and updates `delay = delay * 2 + jitter`. -/
def retryWithBackoff {α : Type} (fn : Nat → Except JsError α) (jit : Nat → Nat)
    (maxRetries initialDelay : Nat) : RetryTrace α :=
  retryAux fn jit maxRetries (maxRetries + 1) 0 initialDelay []

/-- The list of sleep arguments produced by `n` consecutive retried
failures starting at attempt index `i` with current delay `d`: the loop
sleeps `d`, then continues with `delay = delay * 2 + jitter`. -/
def expectedSleeps (jit : Nat → Nat) (d : Nat) : Nat → Nat → List Nat
  | 0, _ => []
  | n + 1, i => d :: expectedSleeps jit (2 * d + jit i) n (i + 1)

/-! ## A model of strict `JSON.parse` -/

/-- The insignificant-whitespace class of the JSON grammar. -/
def isJsonWs (c : Char) : Bool :=
  c = ' ' ∨ c = '\t' ∨ c = '\n' ∨ c = '\r'

/-- Skip insignificant JSON whitespace. -/
def skipJsonWs (cs : List Char) : List Char :=
  cs.dropWhile isJsonWs

/-- An ASCII decimal digit. -/
def isDigitChar (c : Char) : Bool :=
  '0' ≤ c ∧ c ≤ '9'

/-- The value of one hexadecimal digit. -/
def hexVal (c : Char) : Option Nat :=
  if '0' ≤ c ∧ c ≤ '9' then some (c.toNat - '0'.toNat)
  else if 'a' ≤ c ∧ c ≤ 'f' then some (c.toNat - 'a'.toNat + 10)
  else if 'A' ≤ c ∧ c ≤ 'F' then some (c.toNat - 'A'.toNat + 10)
  else none

/-- Parse the body of a JSON string after the opening quote, returning the
decoded characters and the input after the closing quote.  Unescaped control
characters are a syntax error; `\uXXXX` escapes denoting surrogate code
units are rejected by the model (Lean characters are scalar values). -/
def parseStringBody : List Char → Option (List Char × List Char)
  | [] => none
  | '"' :: rest => some ([], rest)
  | '\\' :: '"' :: rest =>
      (parseStringBody rest).map (fun p => ('"' :: p.1, p.2))
  | '\\' :: '\\' :: rest =>
      (parseStringBody rest).map (fun p => ('\\' :: p.1, p.2))
  | '\\' :: '/' :: rest =>
      (parseStringBody rest).map (fun p => ('/' :: p.1, p.2))
  | '\\' :: 'b' :: rest =>
      (parseStringBody rest).map (fun p => ('\x08' :: p.1, p.2))
  | '\\' :: 'f' :: rest =>
      (parseStringBody rest).map (fun p => ('\x0c' :: p.1, p.2))
  | '\\' :: 'n' :: rest =>
      (parseStringBody rest).map (fun p => ('\n' :: p.1, p.2))
  | '\\' :: 'r' :: rest =>
      (parseStringBody rest).map (fun p => ('\r' :: p.1, p.2))
  | '\\' :: 't' :: rest =>
      (parseStringBody rest).map (fun p => ('\t' :: p.1, p.2))
  | '\\' :: 'u' :: h1 :: h2 :: h3 :: h4 :: rest =>
      match hexVal h1, hexVal h2, hexVal h3, hexVal h4 with
      | some a, some b, some c, some d =>
          let v := ((a * 16 + b) * 16 + c) * 16 + d
          if v < 0xd800 ∨ 0xdfff < v then
            (parseStringBody rest).map (fun p => (Char.ofNat v :: p.1, p.2))
          else none
      | _, _, _, _ => none
  | '\\' :: _ => none
  | c :: rest =>
      if c.toNat < 0x20 then none
      else (parseStringBody rest).map (fun p => (c :: p.1, p.2))

/-- Parse a JSON numeric literal `-?(0|[1-9][0-9]*)(\.[0-9]+)?([eE][+-]?[0-9]+)?`,
returning its raw text and the remaining input. -/
def parseNumberLit (cs : List Char) : Option (List Char × List Char) :=
  let (sign, cs1) :=
    match cs with
    | '-' :: r => (['-'], r)
    | _ => (([] : List Char), cs)
  match cs1 with
  | [] => none
  | c :: r1 =>
      let intRest : Option (List Char × List Char) :=
        if c = '0' then some (['0'], r1)
        else if isDigitChar c ∧ c ≠ '0' then
          some (c :: r1.takeWhile isDigitChar, r1.dropWhile isDigitChar)
        else none
      match intRest with
      | none => none
      | some (ip, r2) =>
          let fracRes : Option (List Char × List Char) :=
            match r2 with
            | '.' :: r3 =>
                let ds := r3.takeWhile isDigitChar
                if ds = [] then none
                else some ('.' :: ds, r3.dropWhile isDigitChar)
            | _ => some ([], r2)
          match fracRes with
          | none => none
          | some (fp, r4) =>
              let expRes : Option (List Char × List Char) :=
                match r4 with
                | e :: r5 =>
                    if e = 'e' ∨ e = 'E' then
                      let (sgn, r6) :=
                        match r5 with
                        | '+' :: r7 => (['+'], r7)
                        | '-' :: r7 => (['-'], r7)
                        | _ => (([] : List Char), r5)
                      let ds := r6.takeWhile isDigitChar
                      if ds = [] then none
                      else some (e :: (sgn ++ ds), r6.dropWhile isDigitChar)
                    else some ([], r4)
                | [] => some ([], r4)
              match expRes with
              | none => none
              | some (ep, r8) => some (sign ++ ip ++ fp ++ ep, r8)

mutual

/-- Parse one JSON value (after skipping leading whitespace).  `fuel`
decreases on every recursive call; `jsonParse` passes `length + 2`, which a
derivation can never exhaust because every recursion step consumes input. -/
def parseValue : Nat → List Char → Option (JsonValue × List Char)
  | 0, _ => none
  | fuel + 1, cs =>
      match skipJsonWs cs with
      | [] => none
      | c :: rest =>
          if c = '\x7b' then
            match skipJsonWs rest with
            | '\x7d' :: r2 => some (.obj [], r2)
            | _ => parseMembers fuel rest []
          else if c = '[' then
            match skipJsonWs rest with
            | ']' :: r2 => some (.arr [], r2)
            | _ => parseElements fuel rest []
          else if c = '"' then
            (parseStringBody rest).map (fun p => (.str ⟨p.1⟩, p.2))
          else
            match c :: rest with
            | 't' :: 'r' :: 'u' :: 'e' :: r => some (.bool true, r)
            | 'f' :: 'a' :: 'l' :: 's' :: 'e' :: r => some (.bool false, r)
            | 'n' :: 'u' :: 'l' :: 'l' :: r => some (.null, r)
            | cs' => (parseNumberLit cs').map (fun p => (.num ⟨p.1⟩, p.2))

/-- Parse the members of a JSON object after the opening brace, accumulating
fields; a duplicate key overwrites the value at the first occurrence's
position, as `JSON.parse` does. -/
def parseMembers : Nat → List Char → Obj → Option (JsonValue × List Char)
  | 0, _, _ => none
  | fuel + 1, cs, acc =>
      match skipJsonWs cs with
      | '"' :: r1 =>
          match parseStringBody r1 with
          | none => none
          | some (keyChars, r2) =>
              match skipJsonWs r2 with
              | ':' :: r3 =>
                  match parseValue fuel r3 with
                  | none => none
                  | some (v, r4) =>
                      let acc' := setField acc ⟨keyChars⟩ v
                      match skipJsonWs r4 with
                      | ',' :: r5 => parseMembers fuel r5 acc'
                      | '\x7d' :: r5 => some (.obj acc', r5)
                      | _ => none
              | _ => none
      | _ => none

/-- Parse the elements of a JSON array after the opening bracket. -/
def parseElements : Nat → List Char → List JsonValue → Option (JsonValue × List Char)
  | 0, _, _ => none
  | fuel + 1, cs, acc =>
      match parseValue fuel cs with
      | none => none
      | some (v, r1) =>
          match skipJsonWs r1 with
          | ',' :: r2 => parseElements fuel r2 (acc ++ [v])
          | ']' :: r2 => some (.arr (acc ++ [v]), r2)
          | _ => none

end

/-- `JSON.parse(s)`: the whole input, up to surrounding whitespace, must be
one JSON value; `none` models a thrown `SyntaxError`. -/
def jsonParse (s : String) : Option JsonValue :=
  match parseValue (s.length + 2) s.data with
  | some (v, rest) => if skipJsonWs rest = [] then some v else none
  | none => none

/-! ## Fenced-code-block matching
(the regex of strategy 2 of `extractDataFromUrl` and of `parseJSON`) -/

/-- Drop input up to and including the first triple-backtick fence. -/
def dropToFence : List Char → Option (List Char)
  | '\x60' :: '\x60' :: '\x60' :: rest => some rest
  | _ :: rest => dropToFence rest
  | [] => none

/-- Split at the next triple-backtick fence: the text before it and the
input after it. -/
def splitAtFence : List Char → Option (List Char × List Char)
  | '\x60' :: '\x60' :: '\x60' :: rest => some ([], rest)
  | c :: rest => (splitAtFence rest).map (fun p => (c :: p.1, p.2))
  | [] => none

/-- All fenced code regions matched by the global regex of strategy 2,
already reduced to the cleaned content each iteration computes: the regex
pairs each opening fence (with an optional immediate `json` tag) with the
next closing fence, and the `replace`/`trim` chain leaves exactly the inner
text with surrounding whitespace removed. -/
def fencedBlocksAux : Nat → List Char → List String
  | 0, _ => []
  | fuel + 1, cs =>
      match dropToFence cs with
      | none => []
      | some afterOpen =>
          let afterLang :=
            if listHasPre ['j', 's', 'o', 'n'] afterOpen then afterOpen.drop 4
            else afterOpen
          match splitAtFence afterLang with
          | none => []
          | some (inner, afterClose) =>
              jsTrim ⟨inner⟩ :: fencedBlocksAux fuel afterClose

/-- The fenced-block contents of a response text, in document order. -/
def fencedBlocks (t : String) : List String :=
  fencedBlocksAux (t.length + 1) t.data

/-- Strategy 2 of `extractDataFromUrl`: try each fenced block in order; a
block is attempted only when its content starts with `{` and ends with `}`,
and a parse failure moves on to the next block. -/
def tryFencedBlocks : List String → Option JsonValue
  | [] => none
  | content :: rest =>
      if strStarts content "\x7b" && strEnds content "\x7d" then
        match jsonParse content with
        | some v => some v
        | none => tryFencedBlocks rest
      else tryFencedBlocks rest

/-! ## Balanced-brace scan (strategy 3 of `extractDataFromUrl`) -/

/-- The character walk of strategy 3: track brace depth, remember the start
of a top-level `{`, and emit every balanced top-level `{...}` span.  `cur`
holds the characters collected since the remembered start (`none` when
`start === -1`); the depth is an integer because the walk lets it go
negative on unmatched closing braces. -/
def balScan : List Char → Int → Option (List Char) → List String → List String
  | [], _, _, acc => acc.reverse
  | c :: rest, depth, cur, acc =>
      if c = '\x7b' then
        let cur' :=
          match cur with
          | none => if depth = 0 then some [c] else none
          | some buf => some (buf ++ [c])
        balScan rest (depth + 1) cur' acc
      else if c = '\x7d' then
        match cur with
        | some buf =>
            if depth - 1 = 0 then
              balScan rest (depth - 1) none (String.mk (buf ++ [c]) :: acc)
            else balScan rest (depth - 1) (some (buf ++ [c])) acc
        | none => balScan rest (depth - 1) none acc
      else
        balScan rest depth (cur.map (fun buf => buf ++ [c])) acc

/-- The potential top-level objects collected by strategy 3. -/
def potentialObjects (t : String) : List String :=
  balScan t.data 0 none []

/-- Strategy 3's trial loop: only spans longer than 50 characters are
attempted, in order, until one parses. -/
def tryBalanced : List String → Option JsonValue
  | [] => none
  | o :: rest =>
      if o.length > 50 then
        match jsonParse o with
        | some v => some v
        | none => tryBalanced rest
      else tryBalanced rest

/-! ## The shared fallback `parseJSON` (`lib/error-handler.js` lines 79-140) -/

/-- Split off the run of characters other than `{` and `}` (the `[^{}]*`
regex piece). -/
def nonBraceSplit (cs : List Char) : List Char × List Char :=
  (cs.takeWhile (fun c => c ≠ '\x7b' ∧ c ≠ '\x7d'),
   cs.dropWhile (fun c => c ≠ '\x7b' ∧ c ≠ '\x7d'))

/-- The `(\{[^{}]*\})*` piece of the strategy-3 regex of `parseJSON`: consume
as many complete one-level groups as possible, returning the consumed text
and the rest (an incomplete group consumes nothing, as regex backtracking
would stop the star before it). -/
def s3Groups : Nat → List Char → List Char × List Char
  | 0, cs => ([], cs)
  | fuel + 1, cs =>
      match cs with
      | '\x7b' :: r1 =>
          let (a, r2) := nonBraceSplit r1
          match r2 with
          | '\x7d' :: r3 =>
              let (gs, rest) := s3Groups fuel r3
              ('\x7b' :: (a ++ '\x7d' :: gs), rest)
          | _ => ([], cs)
      | _ => ([], cs)

/-- One attempt of the `parseJSON` strategy-3 regex
`\{[^{}]*(\{[^{}]*\})*[^{}]*\}` at a position whose character is `{`:
the match text and the remaining input, or `none` (no backtracking into the
star can rescue a failed trailing part, because every group ends in `}`). -/
def s3MatchAt (cs : List Char) : Option (List Char × List Char) :=
  match cs with
  | '\x7b' :: r1 =>
      let (a1, r2) := nonBraceSplit r1
      let (gs, r3) := s3Groups r2.length r2
      let (a2, r4) := nonBraceSplit r3
      match r4 with
      | '\x7d' :: r5 => some ('\x7b' :: (a1 ++ gs ++ a2 ++ ['\x7d']), r5)
      | _ => none
  | _ => none

/-- The global scan of the `parseJSON` strategy-3 regex: leftmost matches,
non-overlapping, resuming after each match and advancing one character past
a failed attempt. -/
def s3Scan : Nat → List Char → List String
  | 0, _ => []
  | _ + 1, [] => []
  | fuel + 1, c :: rest =>
      if c = '\x7b' then
        match s3MatchAt (c :: rest) with
        | some (m, after) => String.mk m :: s3Scan fuel after
        | none => s3Scan fuel rest
      else s3Scan fuel rest

/-- `potentialBlocks.reduce((a, b) => a.length > b.length ? a : b)`: the
longest block, later blocks winning ties. -/
def reduceLargest : List String → Option String
  | [] => none
  | x :: xs => some (xs.foldl (fun a b => if a.length > b.length then a else b) x)

/-- The `[\u0000-\u0019]+` removal of `cleanJSONText`. -/
def stripControl (s : String) : String :=
  ⟨s.data.filter (fun c => ¬ c.toNat ≤ 0x19)⟩

/-- The trailing-comma removal `,\s*([}\]])` → `$1` of `cleanJSONText`
(global, resuming after each replacement). -/
def removeTrailingCommasAux : Nat → List Char → List Char
  | 0, cs => cs
  | fuel + 1, cs =>
      match cs with
      | [] => []
      | ',' :: rest =>
          let r2 := rest.dropWhile jsIsWs
          match r2 with
          | c :: r3 =>
              if c = '\x7d' ∨ c = ']' then c :: removeTrailingCommasAux fuel r3
              else ',' :: removeTrailingCommasAux fuel rest
          | [] => ',' :: removeTrailingCommasAux fuel rest
      | c :: rest => c :: removeTrailingCommasAux fuel rest

/-- `cleanJSONText` from `lib/error-handler.js`: the escape-sequence
replacements are textual no-ops (each replaces a two-character sequence with
itself), the control-character removal strips every character below `0x20`
(including the newlines the subsequent whitespace-normalization would have
touched, making it unmatchable), and trailing commas before `}`/`]` are
removed. -/
def cleanJSONText (s : String) : String :=
  let stripped := stripControl s
  ⟨removeTrailingCommasAux stripped.data.length stripped.data⟩

/-- The `(\{[\s\S]*\})` candidate of `parseJSON` strategy 2: from the first
`{` to the last `}`, when a `}` follows the first `{`. -/
def bracesCandidate (t : String) : Option String :=
  match t.data.dropWhile (fun c => c ≠ '\x7b') with
  | [] => none
  | b :: tail =>
      let revTail := tail.reverse.dropWhile (fun c => c ≠ '\x7d')
      if revTail = [] then none else some ⟨b :: revTail.reverse⟩

/-- The result object of `parseJSON`: `{data, success:true, strategy?}` on
success, `{success:false, message, originalText}` on failure. -/
inductive PJResult where
  | ok (data : JsonValue) (strategy : Option String) : PJResult
  | fail (message : String) (originalText : String) : PJResult
deriving Repr

/-- Stand-in for the engine-defined message of a `SyntaxError` thrown by
`JSON.parse` (V8 text, not part of the source). -/
def syntaxErrorMessage : String := "Unexpected token in JSON"

/-- `s.substring(0, n)`: the first `n` characters of `s` (all of `s` when
it is shorter), modelled on the character list so it reduces structurally. -/
def jsTake (t : String) (n : Nat) : String :=
  ⟨t.data.take n⟩

/-- The `originalText` attached to every `parseJSON` failure:
`responseText.substring(0, 500) + '...'`. -/
def pjFailText (t : String) : String :=
  jsTake t 500 ++ "..."

/-- `parseJSON(responseText)` from `lib/error-handler.js`.  Direct parse
first; otherwise one `try` block runs the code-block strategy (only when the
first fenced match has a truthy captured group — a parse failure here
aborts straight to the `catch`), then the first-`{`-to-last-`}` strategy,
then the largest shallow-nested block after `cleanJSONText`, and finally
throws `No JSON pattern found in the response`; the `catch` turns any of
these throws into the `{success:false, ...}` object. -/
def parseJSON (t : String) : PJResult :=
  match jsonParse t with
  | some d => .ok d none
  | none =>
      let codeBlockGroup : Option String :=
        match (fencedBlocks t).head? with
        | some g => if g ≠ "" then some g else none
        | none => none
      match codeBlockGroup with
      | some g =>
          match jsonParse g with
          | some d => .ok d (some "code_block")
          | none => .fail syntaxErrorMessage (pjFailText t)
      | none =>
          match bracesCandidate t with
          | some g =>
              match jsonParse g with
              | some d => .ok d (some "braces")
              | none => .fail syntaxErrorMessage (pjFailText t)
          | none =>
              match reduceLargest (s3Scan (t.length + 1) t.data) with
              | some g =>
                  match jsonParse (cleanJSONText g) with
                  | some d => .ok d (some "largest_block")
                  | none => .fail syntaxErrorMessage (pjFailText t)
              | none =>
                  .fail "No JSON pattern found in the response" (pjFailText t)

/-! ## The recovery cascade of `extractDataFromUrl` -/

/-- The parsing cascade of `extractDataFromUrl` (`claude-extractor.js`): an
industry-specific (or custom-XML) run first attempts the XML mapping, whose
outcome is passed in as `xmlResult` (its construction is orthogonal to the
JSON cascade and never evaluated on the generic path); strategy 1 is the
direct parse of the trimmed text when it starts with `{` and ends with `}`;
strategies 2-4 (fenced blocks, balanced-brace scan, shared `parseJSON`) run
only on the generic path (`!industrySpecificPrompt`).  The result carries
the strategy index that fired (0 for the XML branch). -/
def runCascade (industrySpecific customXml : Bool) (xmlResult : Option JsonValue)
    (t : String) : Option (JsonValue × Nat) :=
  match (if industrySpecific || customXml then xmlResult else none) with
  | some v => some (v, 0)
  | none =>
      let trimmed := jsTrim t
      match
        (if strStarts trimmed "\x7b" && strEnds trimmed "\x7d" then
          jsonParse trimmed
        else none) with
      | some v => some (v, 1)
      | none =>
          if industrySpecific then none
          else
            match tryFencedBlocks (fencedBlocks t) with
            | some v => some (v, 2)
            | none =>
                match tryBalanced (potentialObjects t) with
                | some v => some (v, 3)
                | none =>
                    match parseJSON t with
                    | .ok d _ => some (d, 4)
                    | .fail _ _ => none

/-! ## Schema normalization (`extractDataFromUrl`, success branch) -/

/-- One ESG criterion as supplied by `esg-criteria.js`: an id (either a
default id such as `energy_efficiency` or `<industry>_1` .. `<industry>_7`)
and an English display name. -/
structure Criterion where
  id : String
  name_en : String
deriving Repr, DecidableEq

/-- The empty-but-complete `companyDetails` structure synthesized when the
parsed record has none; `website: url || ""`. -/
def defaultCompanyDetails (url : String) : JsonValue :=
  .obj [("legalEntityName", .str ""), ("businessDescription", .str ""),
    ("sector", .str ""),
    ("address", .obj [("street", .str ""), ("zipCode", .str ""),
      ("city", .str ""), ("country", .str "")]),
    ("contactInfo", .obj [("phoneNumber", .str ""), ("emailAddress", .str ""),
      ("website", .str (jsOrStr url ""))]),
    ("foundingYear", .str ""), ("employeeRange", .str ""),
    ("revenueRange", .str "")]

/-- The new `companyDetails` value computed by the normalization from the
current one: synthesize the default structure when the field is falsy;
otherwise ensure `contactInfo` exists (`cd.contactInfo = cd.contactInfo ||
{}`) and backfill `contactInfo.website = website || url || ""`.  `none`
models the strict-mode `TypeError` of assigning a property on a truthy
non-object. -/
def cdValue (url : String) (cd : Option JsonValue) : Option JsonValue :=
  if jTruthyOpt cd = false then some (defaultCompanyDetails url)
  else
    match cd with
    | some (.obj cdf) =>
        let ci := getField cdf "contactInfo"
        let ciVal := if jTruthyOpt ci then ci.getD (.obj []) else .obj []
        match ciVal with
        | .obj cif =>
            let w := getField cif "website"
            let w' :=
              match w with
              | some wv => if jTruthy wv then wv else .str (jsOrStr url "")
              | none => .str (jsOrStr url "")
            let cif' := setField cif "website" w'
            some (.obj (setField (setField cdf "contactInfo" ciVal)
              "contactInfo" (.obj cif')))
        | _ => none
    | _ => none

/-- The `companyDetails` step of the normalization: all its mutations target
the `companyDetails` field, so the step stores the value computed by
`cdValue` back into the record. -/
def stepCompanyDetails (url : String) (d : Obj) : Option Obj :=
  (cdValue url (getField d "companyDetails")).map
    (fun v => setField d "companyDetails" v)

/-- The twelve cells of the carbon-footprint matrix, in the iteration order
of the fill loop (years outer, scopes inner). -/
def matrixKeys : List String :=
  ["scope1_2022", "scope2_2022", "scope3_2022", "total_2022",
   "scope1_2023", "scope2_2023", "scope3_2023", "total_2023",
   "scope1_2024", "scope2_2024", "scope3_2024", "total_2024"]

/-- The all-empty carbon-footprint object synthesized when the field is
absent (same twelve keys, same order as the source literal). -/
def defaultCarbon : Obj :=
  matrixKeys.map (fun k => (k, .str ""))

/-- The first `(\d{4})` captured by the regex `\((\d{4})\)` when the input
starts with such a token. -/
def parenYearAt : List Char → Option (List Char)
  | '(' :: d1 :: d2 :: d3 :: d4 :: ')' :: _ =>
      if isDigitChar d1 && isDigitChar d2 && isDigitChar d3 && isDigitChar d4 then
        some [d1, d2, d3, d4]
      else none
  | _ => none

/-- `extractYear`: the first `\((\d{4})\)` match in the value. -/
def findYear (s : String) : Option String :=
  go s.data
where
  go : List Char → Option String
    | [] => none
    | c :: rest =>
        match parenYearAt (c :: rest) with
        | some ds => some ⟨ds⟩
        | none => go rest

/-- Split the input around the first `\(\d{4}\)` token: the text before the
token and the text after it. -/
def splitAtParenYear : List Char → Option (List Char × List Char)
  | [] => none
  | c :: rest =>
      match parenYearAt (c :: rest) with
      | some _ => some ([], (c :: rest).drop 6)
      | none => (splitAtParenYear rest).map (fun p => (c :: p.1, p.2))

/-- `value.replace(/\s*\(\d{4}\)/, '')`: remove the first parenthesized
four-digit token together with the whitespace run immediately before it
(the leftmost regex match starts at the beginning of that run). -/
def stripYear (s : String) : String :=
  match splitAtParenYear s.data with
  | none => s
  | some (before, after) =>
      ⟨(before.reverse.dropWhile jsIsWs).reverse ++ after⟩

/-- The migration of one legacy carbon cell,
`cf.scopeK?.replace(/\s*\(\d{4}\)/, '') || ''`: an absent or `null` cell
contributes `''` (optional chaining), a string cell its year-stripped text
(coalesced to `''` when empty); `.replace` on any other value throws
(`none`). -/
def migrateCell : Option JsonValue → Option String
  | none => some ""
  | some .null => some ""
  | some (.str s) => some (jsOrStr (stripYear s) "")
  | some _ => none

/-- One iteration of the fill loop: if the cell named `k` is falsy, set it
to `''`. -/
def fillBody (acc : Obj) (k : String) : Obj :=
  if jTruthyOpt (getField acc k) then acc else setField acc k (.str "")

/-- The fill loop: for every matrix cell, if the current value is falsy set
it to `''`. -/
def fillCells (cf : Obj) : Obj :=
  matrixKeys.foldl fillBody cf

/-- The new `carbonFootprint` value computed by the normalization from the
current one: synthesize the all-empty matrix when the field is falsy;
otherwise, when the legacy shape is detected (`cf.scope1 &&
!cf.scope1_2023`), extract the year from `scope1` (default `'2023'`), write
the four year-suffixed cells, delete the four legacy keys, and in every
case run the fill loop.  `none` models the `TypeError` thrown on a truthy
non-object `carbonFootprint` (first cell assignment) or on
`.match`/`.replace` applied to a non-string legacy value. -/
def carbonValue (cf : Option JsonValue) : Option JsonValue :=
  if jTruthyOpt cf = false then some (.obj defaultCarbon)
  else
    match cf with
    | some (.obj cff) =>
        if jTruthyOpt (getField cff "scope1") ∧
            jTruthyOpt (getField cff "scope1_2023") = false then
          match getField cff "scope1" with
          | some (.str s1) =>
              let year := (findYear s1).getD "2023"
              let cf1 := setField cff ("scope1_" ++ year)
                (.str (jsOrStr (stripYear s1) ""))
              match migrateCell (getField cf1 "scope2") with
              | none => none
              | some v2 =>
                  let cf2 := setField cf1 ("scope2_" ++ year) (.str v2)
                  match migrateCell (getField cf2 "scope3") with
                  | none => none
                  | some v3 =>
                      let cf3 := setField cf2 ("scope3_" ++ year) (.str v3)
                      match migrateCell (getField cf3 "total") with
                      | none => none
                      | some vt =>
                          let cf4 := setField cf3 ("total_" ++ year) (.str vt)
                          let cf5 := delField (delField (delField (delField
                            cf4 "scope1") "scope2") "scope3") "total"
                          some (.obj (fillCells cf5))
          | _ => none
        else
          some (.obj (fillCells cff))
    | _ => none

/-- The `carbonFootprint` step of the normalization: all its mutations
target the `carbonFootprint` field, so the step stores the value computed
by `carbonValue` back into the record. -/
def stepCarbon (d : Obj) : Option Obj :=
  (carbonValue (getField d "carbonFootprint")).map
    (fun v => setField d "carbonFootprint" v)

/-- The placeholder inserted for a required criterion that is absent (falsy)
in the parsed record. -/
def criterionPlaceholder (c : Criterion) : JsonValue :=
  .obj [("actions", .arr [.str ("# No specific actions found for " ++ c.name_en)])]

/-- One iteration of the per-criterion completion loop: if the field named
by the criterion id is falsy, insert the placeholder. -/
def critBody (acc : Obj) (c : Criterion) : Obj :=
  if jTruthyOpt (getField acc c.id) then acc
  else setField acc c.id (criterionPlaceholder c)

/-- The per-criterion completion loop: for every relevant criterion whose
field is falsy, insert the placeholder. -/
def stepCriteria (criteria : List Criterion) (d : Obj) : Obj :=
  criteria.foldl critBody d

/-- The normalization post-processing applied by `extractDataFromUrl` to a
successfully parsed record (`claude-extractor.js`, success branch): inject
`industry` and `sourceType`, synthesize/backfill `companyDetails`, migrate
and fill the carbon-footprint matrix, then insert per-criterion
placeholders.  `none` models a `TypeError` escaping to the outer `catch`. -/
def normalizeRecord (industry urlType url : String) (criteria : List Criterion)
    (d : Obj) : Option Obj :=
  let d1 := setField d "industry" (.str industry)
  let d2 := setField d1 "sourceType" (.str urlType)
  (stepCompanyDetails url d2).bind fun d3 =>
    (stepCarbon d3).map fun d4 =>
      stepCriteria criteria d4

/-! ## The parse-failure fallback record (`extractDataFromUrl`, else branch) -/

/-- The per-criterion placeholder of the fallback record. -/
def fallbackPlaceholder (c : Criterion) : JsonValue :=
  .obj [("actions", .arr [.str ("# Could not extract data for " ++ c.name_en)]),
    ("extracts", .str "Error processing this criterion - extraction failed")]

/-- The `fallbackData` object built when every parsing strategy failed:
basic information, the industry tag, an explicit `extractionError`, one
placeholder per relevant criterion (the object-literal spread), and the
truncated raw response (`substring(0, 1000) + "..."`). -/
def fallbackData (companyId name industry : String) (criteria : List Criterion)
    (responseText : String) : Obj :=
  let base : Obj :=
    [("basicInformation", .obj [("companyName", .str (jsOrStr name companyId)),
        ("reportYear", .str "Unknown"), ("reportTitle", .str "Unknown")]),
     ("industry", .str industry),
     ("extractionError",
       .str "Failed to parse Claude's response into valid JSON format")]
  let withCriteria :=
    criteria.foldl (fun acc c => setField acc c.id (fallbackPlaceholder c)) base
  setField withCriteria "rawResponse" (.str (jsTake responseText 1000 ++ "..."))

/-- The record returned by `extractDataFromUrl` when JSON parsing failed:
terminal status `extraction_failed`, the full raw response, the fallback
data and an explicit error message. -/
structure FailedExtraction where
  companyId : String
  name : String
  url : String
  industry : String
  rawResponse : String
  fallback : Obj
  error : String
  sourceType : String
  status : String
deriving Repr

/-- The parse-failure return value of `extractDataFromUrl`. -/
def parseFailureReturn (companyId name url industry sourceType : String)
    (criteria : List Criterion) (responseText : String) : FailedExtraction :=
  { companyId := companyId, name := name, url := url, industry := industry,
    rawResponse := responseText,
    fallback := fallbackData companyId name industry criteria responseText,
    error := "Failed to parse JSON from Claude response",
    sourceType := sourceType,
    status := "extraction_failed" }

/-- The terminal shape of one `extractDataFromUrl` run, after the model
response text is in hand: a normalized record, the parse-failure fallback,
or a `TypeError` escaping to the outer `catch` (which yields the generic
`extraction_failed` record). -/
inductive ExtractOutcome where
  | complete (data : Obj) : ExtractOutcome
  | failedParse (record : FailedExtraction) : ExtractOutcome
  | thrown : ExtractOutcome
deriving Repr

/-- The response-processing tail of `extractDataFromUrl`: run the recovery
cascade; on success normalize the parsed object (a non-object parse result
or a normalization `TypeError` escapes to the outer `catch`); on total
parse failure build the fallback record — never an unhandled exception. -/
def processResponse (companyId name url industry urlType : String)
    (criteria : List Criterion) (industrySpecific customXml : Bool)
    (xmlResult : Option JsonValue) (t : String) : ExtractOutcome :=
  match runCascade industrySpecific customXml xmlResult t with
  | some (v, _) =>
      match v with
      | .obj fields =>
          match normalizeRecord industry urlType url criteria fields with
          | some data => .complete data
          | none => .thrown
      | _ => .thrown
  | none =>
      .failedParse
        (parseFailureReturn companyId name url industry urlType criteria t)

/-! ## URL classification (`utils.js`) and the batch partition
(`claude-batch-extractor.js` `createBatchExtractionRequest`) -/

/-- The PDF indicator substrings of `validatePdfUrl`. -/
def pdfIndicators : List String :=
  ["/pdf/", "/document/pdf/", "/content/pdf/", "/download/pdf/",
   "pdf=", "type=pdf", "format=pdf", "application/pdf"]

/-- `validatePdfUrl(url)` from `utils.js`: a nonempty string whose part
before the query ends in `.pdf` (case-insensitively) or which contains one
of the PDF indicator substrings (checked against the lower-cased full
URL). -/
def validatePdfUrl (url : String) : Bool :=
  if url = "" then false
  else if strEnds (asciiLower (beforeQuery url)) ".pdf" then true
  else pdfIndicators.any (fun ind => strIncludes (asciiLower url) ind)

/-- `validateWebsiteUrl(url)` from `utils.js`: the WHATWG `new URL(url)`
constructor is platform code, abstracted as the parameter `urlParses`
(a constructor throw short-circuits to `false`); a parseable non-PDF URL
must additionally start with `http://` or `https://`. -/
def validateWebsiteUrl (urlParses : String → Bool) (url : String) : Bool :=
  if url = "" then false
  else if urlParses url = false then false
  else if validatePdfUrl url then false
  else strStarts url "http://" || strStarts url "https://"

/-- The three URL classes of `determineUrlType`. -/
inductive UrlType where
  | pdf : UrlType
  | website : UrlType
  | unknown : UrlType
deriving Repr, DecidableEq

/-- `determineUrlType(url)` from `utils.js`. -/
def determineUrlType (urlParses : String → Bool) (url : String) : UrlType :=
  if validatePdfUrl url then .pdf
  else if validateWebsiteUrl urlParses url then .website
  else .unknown

/-- One company row submitted to batch extraction. -/
structure Company where
  companyId : String
  name : String
  url : String
  industry : String
  customPrompt : Option String
deriving Repr, DecidableEq

/-- A company marked `extraction_skipped` during batch validation, with the
explicit reason string recorded against it. -/
structure SkippedCompany where
  company : Company
  status : String
  message : String
deriving Repr, DecidableEq

/-- The URL-validation loop of `createBatchExtractionRequest`: an `unknown`
URL is skipped with `URL does not appear to be a valid PDF or website`, a
`website` URL is skipped with `Websites not supported in batch mode`, and
only `pdf` URLs are kept as valid, all in input order. -/
def partitionBatch (urlParses : String → Bool) :
    List Company → List Company × List SkippedCompany
  | [] => ([], [])
  | c :: rest =>
      let (valid, invalid) := partitionBatch urlParses rest
      match determineUrlType urlParses c.url with
      | .unknown =>
          (valid,
           ⟨c, "extraction_skipped",
             "URL does not appear to be a valid PDF or website"⟩ :: invalid)
      | .website =>
          (valid,
           ⟨c, "extraction_skipped", "Websites not supported in batch mode"⟩
             :: invalid)
      | .pdf => (c :: valid, invalid)

/-- One entry of the upstream batch payload.  The `params` of the real
request are prompt text built from the company row (custom prompt,
otherwise the shared system/user prompt modules); only the identifying
`custom_id` matters for payload membership and is retained here. -/
structure BatchRequest where
  custom_id : String
deriving Repr, DecidableEq

/-- `batchRequests`: the payload built from the valid companies only
(`validCompanies.map(...)`, each entry carrying `custom_id: companyId`). -/
def batchRequests (valid : List Company) : List BatchRequest :=
  valid.map (fun c => ⟨c.companyId⟩)

/-! ## Bounded-concurrency mapping (`utils.js` `concurrentMap`) -/

/-- The event-loop abstraction for `concurrentMap`: the loop pushes, in
input order, one promise per item onto `results`; the promise for index `i`
eventually fulfills with `f i` (the settled result of `fn(items[i])`).  The
`executing` set and `Promise.race` only bound how many tasks run at once —
they decide *when* promises settle, represented here by an arbitrary
completion order.  `runCompletions` replays a completion order into the
per-index settlement table. -/
def runCompletions {β : Type} (f : Nat → β) (order : List Nat) :
    Nat → Option β :=
  order.foldl (fun slots j => Function.update slots j (some (f j))) (fun _ => none)

/-- `Promise.all(results)`: read the settled value of every promise in the
order the promises were pushed (input order); `none` if any is still
pending. -/
def concurrentMapResult {α β : Type} (items : List α) (f : Nat → β)
    (order : List Nat) : Option (List β) :=
  (List.range items.length).mapM (runCompletions f order)

/-! ## Concrete records used in closed-form evaluations -/

/-- A batch-mode company row whose URL is classified `pdf`. -/
def c9pdf : Company := ⟨"c1", "Alpha", "https://a.example/r.pdf", "m", none⟩

/-- A batch-mode company row whose URL is classified `website`. -/
def c9web : Company := ⟨"c2", "Beta", "https://a.example/page", "m", none⟩

/-- A batch-mode company row whose URL is classified `unknown`. -/
def c9unk : Company := ⟨"c3", "Gamma", "ftp://x", "m", none⟩

/-- The normalized record produced from the empty parsed record for
industry `manufacturing`, source type `pdf`, URL `https://exam.ple/r.pdf`
and the single criterion `energy_efficiency`. -/
def witnessNormalized1 : Obj :=
  [("industry", .str "manufacturing"),
   ("sourceType", .str "pdf"),
   ("companyDetails",
    .obj [("legalEntityName", .str ""), ("businessDescription", .str ""),
      ("sector", .str ""),
      ("address", .obj [("street", .str ""), ("zipCode", .str ""),
        ("city", .str ""), ("country", .str "")]),
      ("contactInfo", .obj [("phoneNumber", .str ""), ("emailAddress", .str ""),
        ("website", .str "https://exam.ple/r.pdf")]),
      ("foundingYear", .str ""), ("employeeRange", .str ""),
      ("revenueRange", .str "")]),
   ("carbonFootprint", .obj defaultCarbon),
   ("energy_efficiency",
    .obj [("actions",
      .arr [.str "# No specific actions found for Energy efficiency"])])]

/-- The legacy-shaped carbon-footprint object of the specification's
migration example. -/
def legacyCarbonExample : Obj :=
  [("scope1", .str "12.3 t CO2e (2022)"), ("scope2", .str "8 t CO2e (2022)"),
   ("scope3", .str ""), ("total", .str "20.3 t CO2e (2022)")]

/-- The record normalization produces from
`[("carbonFootprint", .obj legacyCarbonExample)]` with industry `m`, source
type `pdf` and URL `u`. -/
def witnessNormalized2 : Obj :=
  [("carbonFootprint",
    .obj [("scope1_2022", .str "12.3 t CO2e"), ("scope2_2022", .str "8 t CO2e"),
      ("scope3_2022", .str ""), ("total_2022", .str "20.3 t CO2e"),
      ("scope1_2023", .str ""), ("scope2_2023", .str ""),
      ("scope3_2023", .str ""), ("total_2023", .str ""),
      ("scope1_2024", .str ""), ("scope2_2024", .str ""),
      ("scope3_2024", .str ""), ("total_2024", .str "")]),
   ("industry", .str "m"),
   ("sourceType", .str "pdf"),
   ("companyDetails",
    .obj [("legalEntityName", .str ""), ("businessDescription", .str ""),
      ("sector", .str ""),
      ("address", .obj [("street", .str ""), ("zipCode", .str ""),
        ("city", .str ""), ("country", .str "")]),
      ("contactInfo", .obj [("phoneNumber", .str ""), ("emailAddress", .str ""),
        ("website", .str "u")]),
      ("foundingYear", .str ""), ("employeeRange", .str ""),
      ("revenueRange", .str "")])]

/-! ## Basic lemmas on object field access -/

theorem getField_setField_self (o : Obj) (k : String) (v : JsonValue) :
    getField (setField o k v) k = some v := by
  induction o with
  | nil => simp [setField, getField]
  | cons f rest ih =>
      obtain ⟨k', v'⟩ := f
      by_cases h : k' = k
      · simp [setField, getField, h]
      · simp [setField, getField, h, ih]

theorem getField_setField_ne (o : Obj) (k k' : String) (v : JsonValue)
    (h : k' ≠ k) : getField (setField o k v) k' = getField o k' := by
  have h' : ¬(k = k') := Ne.symm h
  induction o with
  | nil => simp [setField, getField, h']
  | cons f rest ih =>
      obtain ⟨k1, v1⟩ := f
      by_cases h1 : k1 = k
      · have h1' : ¬(k1 = k') := by rw [h1]; exact h'
        simp [setField, getField, h1, h1', h']
      · simp [setField, getField, h1, ih]

theorem setField_eq_of_get (o : Obj) (k : String) (v : JsonValue)
    (h : getField o k = some v) : setField o k v = o := by
  induction o with
  | nil => simp [getField] at h
  | cons f rest ih =>
      obtain ⟨k', v'⟩ := f
      by_cases hk : k' = k
      · simp [getField, hk] at h
        simp [setField, hk, h]
      · simp [getField, hk] at h
        simp [setField, hk, ih h]

theorem getField_delField_self (o : Obj) (k : String) :
    getField (delField o k) k = none := by
  induction o with
  | nil => simp [delField, getField]
  | cons f rest ih =>
      obtain ⟨k', v'⟩ := f
      by_cases h : k' = k
      · simp [delField, h, ih]
      · simp [delField, getField, h, ih]

theorem getField_delField_ne (o : Obj) (k k' : String) (h : k' ≠ k) :
    getField (delField o k) k' = getField o k' := by
  have h' : ¬(k = k') := Ne.symm h
  induction o with
  | nil => simp [delField]
  | cons f rest ih =>
      obtain ⟨k1, v1⟩ := f
      by_cases h1 : k1 = k
      · have h1' : ¬(k1 = k') := by rw [h1]; exact h'
        simp [delField, getField, h1, h1', h', ih]
      · simp [delField, getField, h1, ih]

/-! ## Lemmas on the per-criterion completion loop -/

theorem critBody_get_ne (d : Obj) (c : Criterion) (k : String)
    (hk : c.id ≠ k) : getField (critBody d c) k = getField d k := by
  unfold critBody
  split
  · rfl
  · exact getField_setField_ne _ _ _ _ (Ne.symm hk)

theorem critBody_truthy_stable (d : Obj) (c : Criterion) (k : String)
    (h : jTruthyOpt (getField d k) = true) :
    getField (critBody d c) k = getField d k := by
  unfold critBody
  split
  · rfl
  · rename_i hneg
    by_cases hck : c.id = k
    · rw [hck] at hneg
      exact absurd h hneg
    · exact getField_setField_ne _ _ _ _ (Ne.symm hck)

theorem stepCriteria_get_ne (cs : List Criterion) (d : Obj) (k : String)
    (h : ∀ c ∈ cs, c.id ≠ k) :
    getField (stepCriteria cs d) k = getField d k := by
  induction cs generalizing d with
  | nil => rfl
  | cons c rest ih =>
      show getField (stepCriteria rest (critBody d c)) k = getField d k
      rw [ih (critBody d c) (fun c' hc' => h c' (List.mem_cons_of_mem _ hc'))]
      exact critBody_get_ne d c k (h c (List.mem_cons_self _ _))

theorem stepCriteria_truthy_stable (cs : List Criterion) (d : Obj) (k : String)
    (h : jTruthyOpt (getField d k) = true) :
    getField (stepCriteria cs d) k = getField d k := by
  induction cs generalizing d with
  | nil => rfl
  | cons c rest ih =>
      show getField (stepCriteria rest (critBody d c)) k = getField d k
      have hb := critBody_truthy_stable d c k h
      rw [ih (critBody d c) (by rw [hb]; exact h)]
      exact hb

theorem stepCriteria_truthy_mem (cs : List Criterion) (d : Obj) (c : Criterion)
    (hc : c ∈ cs) :
    jTruthyOpt (getField (stepCriteria cs d) c.id) = true := by
  induction cs generalizing d with
  | nil => cases hc
  | cons c0 rest ih =>
      rcases List.mem_cons.mp hc with rfl | hmem
      · show jTruthyOpt (getField (stepCriteria rest (critBody d c)) c.id) = true
        have h0 : jTruthyOpt (getField (critBody d c) c.id) = true := by
          unfold critBody
          split
          · assumption
          · rw [getField_setField_self]
            rfl
        rw [stepCriteria_truthy_stable rest _ _ h0]
        exact h0
      · exact ih (critBody d c0) hmem

theorem stepCriteria_id_of_truthy (cs : List Criterion) (d : Obj)
    (h : ∀ c ∈ cs, jTruthyOpt (getField d c.id) = true) :
    stepCriteria cs d = d := by
  induction cs with
  | nil => rfl
  | cons c rest ih =>
      have hbody : critBody d c = d := by
        unfold critBody
        rw [if_pos (h c (List.mem_cons_self _ _))]
      show stepCriteria rest (critBody d c) = d
      rw [hbody]
      exact ih (fun c' hc' => h c' (List.mem_cons_of_mem _ hc'))

theorem stepCriteria_placeholder (cs : List Criterion) (d : Obj) (c : Criterion)
    (hnd : (cs.map Criterion.id).Nodup) (hc : c ∈ cs)
    (hf : jTruthyOpt (getField d c.id) = false) :
    getField (stepCriteria cs d) c.id = some (criterionPlaceholder c) := by
  induction cs generalizing d with
  | nil => cases hc
  | cons c0 rest ih =>
      rcases List.mem_cons.mp hc with rfl | hmem
      · have h1 : getField (critBody d c) c.id = some (criterionPlaceholder c) := by
          unfold critBody
          rw [if_neg (by rw [hf]; exact Bool.false_ne_true)]
          exact getField_setField_self _ _ _
        show getField (stepCriteria rest (critBody d c)) c.id = _
        rw [stepCriteria_truthy_stable rest _ _ (by rw [h1]; rfl)]
        exact h1
      · have hne : c0.id ≠ c.id := by
          intro he
          have h0 := (List.nodup_cons.mp hnd).1
          exact h0 (he ▸ List.mem_map_of_mem Criterion.id hmem)
        have hb : getField (critBody d c0) c.id = getField d c.id :=
          critBody_get_ne d c0 c.id hne
        exact ih (critBody d c0) (List.nodup_cons.mp hnd).2 hmem (by rw [hb]; exact hf)

/-! ## Lemmas on the carbon-matrix fill loop -/

/-- A well-formed matrix cell: present, and either the empty string or
truthy. -/
def CellGood (o : Option JsonValue) : Prop :=
  ∃ u, o = some u ∧ (u = JsonValue.str "" ∨ jTruthy u = true)

theorem cellGood_fillBody_self (cf : Obj) (k : String) :
    CellGood (getField (fillBody cf k) k) := by
  unfold fillBody
  split
  · rename_i h
    cases hg : getField cf k with
    | none => rw [hg] at h; exact absurd h (by simp [jTruthyOpt])
    | some u => exact ⟨u, rfl, Or.inr (by rw [hg] at h; simpa [jTruthyOpt] using h)⟩
  · exact ⟨.str "", getField_setField_self _ _ _, Or.inl rfl⟩

theorem cellGood_fillBody_mono (cf : Obj) (k k' : String)
    (h : CellGood (getField cf k)) : CellGood (getField (fillBody cf k') k) := by
  unfold fillBody
  split
  · exact h
  · by_cases he : k' = k
    · subst he
      exact ⟨.str "", getField_setField_self _ _ _, Or.inl rfl⟩
    · rw [getField_setField_ne _ _ _ _ (Ne.symm he)]
      exact h

theorem fillFold_cellGood_mono (ks : List String) (cf : Obj) (k : String)
    (h : CellGood (getField cf k)) :
    CellGood (getField (ks.foldl fillBody cf) k) := by
  induction ks generalizing cf with
  | nil => exact h
  | cons k0 rest ih => exact ih (fillBody cf k0) (cellGood_fillBody_mono cf k k0 h)

theorem fillFold_cellGood (ks : List String) (cf : Obj) (k : String)
    (hk : k ∈ ks) : CellGood (getField (ks.foldl fillBody cf) k) := by
  induction ks generalizing cf with
  | nil => cases hk
  | cons k0 rest ih =>
      rcases List.mem_cons.mp hk with rfl | hmem
      · exact fillFold_cellGood_mono rest (fillBody cf k) k
          (cellGood_fillBody_self cf k)
      · exact ih (fillBody cf k0) hmem

theorem fillBody_get_ne (cf : Obj) (k k' : String) (h : k' ≠ k) :
    getField (fillBody cf k') k = getField cf k := by
  unfold fillBody
  split
  · rfl
  · exact getField_setField_ne _ _ _ _ (Ne.symm h)

theorem fillFold_get_ne (ks : List String) (cf : Obj) (k : String)
    (h : k ∉ ks) : getField (ks.foldl fillBody cf) k = getField cf k := by
  induction ks generalizing cf with
  | nil => rfl
  | cons k0 rest ih =>
      show getField (rest.foldl fillBody (fillBody cf k0)) k = getField cf k
      rw [ih (fillBody cf k0) (fun hm => h (List.mem_cons_of_mem _ hm))]
      exact fillBody_get_ne cf k k0 (fun he => h (he ▸ List.mem_cons_self _ _))

theorem fillBody_truthy_stable (cf : Obj) (k k' : String)
    (h : jTruthyOpt (getField cf k) = true) :
    getField (fillBody cf k') k = getField cf k := by
  unfold fillBody
  split
  · rfl
  · rename_i hneg
    by_cases he : k' = k
    · rw [he] at hneg
      exact absurd h hneg
    · exact getField_setField_ne _ _ _ _ (Ne.symm he)

theorem fillFold_truthy_stable (ks : List String) (cf : Obj) (k : String)
    (h : jTruthyOpt (getField cf k) = true) :
    getField (ks.foldl fillBody cf) k = getField cf k := by
  induction ks generalizing cf with
  | nil => rfl
  | cons k0 rest ih =>
      show getField (rest.foldl fillBody (fillBody cf k0)) k = getField cf k
      have hb := fillBody_truthy_stable cf k k0 h
      rw [ih (fillBody cf k0) (by rw [hb]; exact h)]
      exact hb

theorem fillBody_id (cf : Obj) (k : String) (h : CellGood (getField cf k)) :
    fillBody cf k = cf := by
  unfold fillBody
  split
  · rfl
  · rename_i hneg
    rcases h with ⟨u, hu, hd⟩
    rcases hd with rfl | ht
    · exact setField_eq_of_get cf k (.str "") hu
    · rw [hu] at hneg
      exact absurd ht hneg

theorem fillFold_id (ks : List String) (cf : Obj)
    (h : ∀ k ∈ ks, CellGood (getField cf k)) : ks.foldl fillBody cf = cf := by
  induction ks with
  | nil => rfl
  | cons k0 rest ih =>
      have hb : fillBody cf k0 = cf := fillBody_id cf k0 (h k0 (List.mem_cons_self _ _))
      show rest.foldl fillBody (fillBody cf k0) = cf
      rw [hb]
      exact ih (fun k hk => h k (List.mem_cons_of_mem _ hk))

/-! ## Characterization of the companyDetails and carbonFootprint steps -/

theorem fillCells_get_ne (cf : Obj) (k : String) (h : k ∉ matrixKeys) :
    getField (fillCells cf) k = getField cf k :=
  fillFold_get_ne matrixKeys cf k h

theorem fillCells_cellGood (cf : Obj) (k : String) (hk : k ∈ matrixKeys) :
    CellGood (getField (fillCells cf) k) :=
  fillFold_cellGood matrixKeys cf k hk

theorem fillCells_truthy_stable (cf : Obj) (k : String)
    (h : jTruthyOpt (getField cf k) = true) :
    getField (fillCells cf) k = getField cf k :=
  fillFold_truthy_stable matrixKeys cf k h

theorem fillCells_id (cf : Obj)
    (h : ∀ k ∈ matrixKeys, CellGood (getField cf k)) : fillCells cf = cf :=
  fillFold_id matrixKeys cf h

/-- The shape every `companyDetails` value has after normalization: an
object whose `contactInfo` is an object whose `website` is present and
either truthy or exactly the backfill `url || ""`. -/
def CDGood (url : String) (v : JsonValue) : Prop :=
  ∃ X Y w, v = JsonValue.obj X ∧ getField X "contactInfo" = some (.obj Y) ∧
    getField Y "website" = some w ∧
    (jTruthy w = true ∨ w = .str (jsOrStr url ""))

theorem cdValue_good (url : String) (cd : Option JsonValue) (v : JsonValue)
    (h : cdValue url cd = some v) : CDGood url v := by
  unfold cdValue at h
  split at h
  · cases h
    exact ⟨_, _, _, rfl, rfl, rfl, Or.inr rfl⟩
  · split at h
    · rename_i cdf hno
      dsimp only at h
      by_cases ht : jTruthyOpt (getField cdf "contactInfo") = true
      · rw [if_pos ht] at h
        cases hci : getField cdf "contactInfo" with
        | none =>
            rw [hci] at ht
            exact absurd ht (by simp [jTruthyOpt])
        | some w0 =>
            rw [hci] at h
            simp only [Option.getD_some] at h
            rcases w0 with _ | b | raw | s0 | elems | cif
            · exact Option.noConfusion h
            · exact Option.noConfusion h
            · exact Option.noConfusion h
            · exact Option.noConfusion h
            · exact Option.noConfusion h
            · dsimp only at h
              cases h
              refine ⟨_, _, _, rfl, getField_setField_self _ _ _,
                getField_setField_self _ _ _, ?_⟩
              cases hw0 : getField cif "website" with
              | none => exact Or.inr rfl
              | some wv =>
                  dsimp only
                  by_cases hwt : jTruthy wv = true
                  · rw [if_pos hwt]
                    exact Or.inl hwt
                  · rw [if_neg hwt]
                    exact Or.inr rfl
      · rw [if_neg ht] at h
        dsimp only at h
        cases h
        refine ⟨_, _, _, rfl, getField_setField_self _ _ _,
          getField_setField_self _ _ _, Or.inr rfl⟩
    · exact Option.noConfusion h

theorem cdGood_truthy (url : String) (v : JsonValue) (h : CDGood url v) :
    jTruthy v = true := by
  rcases h with ⟨X, _, _, rfl, _⟩
  rfl

theorem cdValue_idem (url : String) (v : JsonValue) (h : CDGood url v) :
    cdValue url (some v) = some v := by
  rcases h with ⟨X, Y, w, rfl, hci, hw, hdisj⟩
  unfold cdValue
  rw [if_neg (by simp [jTruthyOpt, jTruthy])]
  dsimp only
  rw [hci]
  rw [if_pos (show jTruthyOpt (some (JsonValue.obj Y)) = true from rfl)]
  rw [Option.getD_some]
  dsimp only
  rw [hw]
  have hw' : (match some w with
      | some wv => if jTruthy wv = true then wv else JsonValue.str (jsOrStr url "")
      | none => JsonValue.str (jsOrStr url "")) = w := by
    dsimp only
    rcases hdisj with ht | heq
    · rw [if_pos ht]
    · rw [heq]
      split <;> rfl
  rw [hw']
  rw [setField_eq_of_get Y "website" w hw]
  rw [setField_eq_of_get X "contactInfo" (.obj Y) hci]
  rw [setField_eq_of_get X "contactInfo" (.obj Y) hci]

/-- The shape every `carbonFootprint` value has after normalization: an
object in which the legacy-migration guard can no longer fire and every
matrix cell is present as the empty string or a truthy value. -/
def CFGood (v : JsonValue) : Prop :=
  ∃ Z, v = JsonValue.obj Z ∧
    (jTruthyOpt (getField Z "scope1") = false ∨
      jTruthyOpt (getField Z "scope1_2023") = true) ∧
    ∀ k ∈ matrixKeys, CellGood (getField Z k)

theorem scope1_not_matrixKey : "scope1" ∉ matrixKeys := by decide

theorem defaultCarbon_cells :
    ∀ k ∈ matrixKeys, CellGood (getField defaultCarbon k) := by
  intro k hk
  simp only [matrixKeys, List.mem_cons, List.not_mem_nil, or_false] at hk
  rcases hk with rfl | rfl | rfl | rfl | rfl | rfl | rfl | rfl | rfl | rfl | rfl | rfl
  all_goals exact ⟨.str "", rfl, Or.inl rfl⟩

theorem carbonValue_good (cf : Option JsonValue) (v : JsonValue)
    (h : carbonValue cf = some v) : CFGood v := by
  unfold carbonValue at h
  split at h
  · cases h
    exact ⟨defaultCarbon, rfl, Or.inl rfl, defaultCarbon_cells⟩
  · split at h
    · rename_i cff hno
      split at h
      · split at h
        · rename_i s1 hs1
          dsimp only at h
          split at h
          · exact Option.noConfusion h
          · rename_i v2 hv2
            split at h
            · exact Option.noConfusion h
            · rename_i v3 hv3
              split at h
              · exact Option.noConfusion h
              · rename_i vt hvt
                cases h
                refine ⟨_, rfl, Or.inl ?_, fun k hk => fillCells_cellGood _ k hk⟩
                rw [fillCells_get_ne _ _ scope1_not_matrixKey]
                rw [getField_delField_ne _ _ _ (by decide)]
                rw [getField_delField_ne _ _ _ (by decide)]
                rw [getField_delField_ne _ _ _ (by decide)]
                rw [getField_delField_self]
                rfl
        · exact Option.noConfusion h
      · rename_i hneg
        cases h
        refine ⟨fillCells cff, rfl, ?_, fun k hk => fillCells_cellGood _ k hk⟩
        rcases not_and_or.mp hneg with h1 | h2
        · left
          rw [fillCells_get_ne cff _ scope1_not_matrixKey]
          cases hb : jTruthyOpt (getField cff "scope1")
          · rfl
          · exact absurd hb h1
        · right
          cases hb : jTruthyOpt (getField cff "scope1_2023")
          · exact absurd hb h2
          · rw [fillCells_truthy_stable cff _ hb]
            exact hb
    · exact Option.noConfusion h

theorem cfGood_truthy (v : JsonValue) (h : CFGood v) : jTruthy v = true := by
  rcases h with ⟨Z, rfl, _⟩
  rfl

theorem carbonValue_idem (v : JsonValue) (h : CFGood v) :
    carbonValue (some v) = some v := by
  rcases h with ⟨Z, rfl, hguard, hcells⟩
  have hcond : ¬((jTruthyOpt (getField Z "scope1") = true) ∧
      jTruthyOpt (getField Z "scope1_2023") = false) := by
    rcases hguard with h1 | h2
    · intro hc
      rw [h1] at hc
      exact absurd hc.1 (by decide)
    · intro hc
      rw [h2] at hc
      exact absurd hc.2 (by decide)
  unfold carbonValue
  rw [if_neg (by simp [jTruthyOpt, jTruthy])]
  dsimp only
  rw [if_neg hcond, fillCells_id Z hcells]

/-! ## Composed facts about the normalization pipeline -/

theorem truthyOpt_exists (o : Option JsonValue) (h : jTruthyOpt o = true) :
    ∃ v, o = some v ∧ jTruthy v = true := by
  cases o with
  | none => exact absurd h (by simp [jTruthyOpt])
  | some v => exact ⟨v, rfl, h⟩

theorem stepCompanyDetails_get_ne (url : String) (d d' : Obj) (k : String)
    (hk : k ≠ "companyDetails") (h : stepCompanyDetails url d = some d') :
    getField d' k = getField d k := by
  unfold stepCompanyDetails at h
  obtain ⟨v, hv, hd⟩ := Option.map_eq_some'.mp h
  rw [← hd]
  exact getField_setField_ne d "companyDetails" k v hk

theorem stepCompanyDetails_cd (url : String) (d d' : Obj)
    (h : stepCompanyDetails url d = some d') :
    ∃ v, getField d' "companyDetails" = some v ∧ CDGood url v := by
  unfold stepCompanyDetails at h
  obtain ⟨v, hv, hd⟩ := Option.map_eq_some'.mp h
  refine ⟨v, ?_, cdValue_good url _ v hv⟩
  rw [← hd]
  exact getField_setField_self d "companyDetails" v

theorem stepCompanyDetails_of_good (url : String) (d : Obj) (v : JsonValue)
    (hget : getField d "companyDetails" = some v) (hg : CDGood url v) :
    stepCompanyDetails url d = some d := by
  unfold stepCompanyDetails
  rw [hget, cdValue_idem url v hg, Option.map_some']
  rw [setField_eq_of_get d "companyDetails" v hget]

theorem stepCarbon_get_ne (d d' : Obj) (k : String)
    (hk : k ≠ "carbonFootprint") (h : stepCarbon d = some d') :
    getField d' k = getField d k := by
  unfold stepCarbon at h
  obtain ⟨v, hv, hd⟩ := Option.map_eq_some'.mp h
  rw [← hd]
  exact getField_setField_ne d "carbonFootprint" k v hk

theorem stepCarbon_cf (d d' : Obj) (h : stepCarbon d = some d') :
    ∃ v, getField d' "carbonFootprint" = some v ∧ CFGood v := by
  unfold stepCarbon at h
  obtain ⟨v, hv, hd⟩ := Option.map_eq_some'.mp h
  refine ⟨v, ?_, carbonValue_good _ v hv⟩
  rw [← hd]
  exact getField_setField_self d "carbonFootprint" v

theorem stepCarbon_of_good (d : Obj) (v : JsonValue)
    (hget : getField d "carbonFootprint" = some v) (hg : CFGood v) :
    stepCarbon d = some d := by
  unfold stepCarbon
  rw [hget, carbonValue_idem v hg, Option.map_some']
  rw [setField_eq_of_get d "carbonFootprint" v hget]

/-- Decomposition of a successful `normalizeRecord` run into its three
stages. -/
theorem normalizeRecord_parts (industry urlType url : String)
    (criteria : List Criterion) (d r' : Obj)
    (h : normalizeRecord industry urlType url criteria d = some r') :
    ∃ d3 d4,
      stepCompanyDetails url
        (setField (setField d "industry" (.str industry)) "sourceType"
          (.str urlType)) = some d3 ∧
      stepCarbon d3 = some d4 ∧ r' = stepCriteria criteria d4 := by
  unfold normalizeRecord at h
  dsimp only at h
  cases hcd : stepCompanyDetails url
      (setField (setField d "industry" (.str industry)) "sourceType"
        (.str urlType)) with
  | none => rw [hcd] at h; exact Option.noConfusion h
  | some d3 =>
      rw [hcd] at h
      rw [Option.some_bind] at h
      cases hcb : stepCarbon d3 with
      | none => rw [hcb] at h; exact Option.noConfusion h
      | some d4 =>
          rw [hcb, Option.map_some'] at h
          exact ⟨d3, d4, rfl, hcb, (Option.some.injEq _ _ ▸ h).symm⟩

theorem sourceType_ne_industry : ("sourceType" : String) ≠ "industry" := by decide

theorem companyDetails_ne_industry : ("companyDetails" : String) ≠ "industry" := by decide

theorem carbonFootprint_ne_industry : ("carbonFootprint" : String) ≠ "industry" := by decide

/-! ## Helpers for the legacy carbon migration -/

theorem fillBody_stable_of_good (cf : Obj) (k k' : String) (u : JsonValue)
    (hu : getField cf k = some u) (hg : u = .str "" ∨ jTruthy u = true) :
    getField (fillBody cf k') k = some u := by
  unfold fillBody
  split
  · exact hu
  · rename_i hneg
    by_cases he : k' = k
    · subst he
      rcases hg with rfl | ht
      · exact getField_setField_self _ _ _
      · rw [hu] at hneg
        exact absurd ht hneg
    · rw [getField_setField_ne _ _ _ _ (Ne.symm he)]
      exact hu

theorem fillFold_stable_of_good (ks : List String) (cf : Obj) (k : String)
    (u : JsonValue) (hu : getField cf k = some u)
    (hg : u = .str "" ∨ jTruthy u = true) :
    getField (ks.foldl fillBody cf) k = some u := by
  induction ks generalizing cf with
  | nil => exact hu
  | cons k0 rest ih =>
      exact ih (fillBody cf k0) (fillBody_stable_of_good cf k k0 u hu hg)

theorem fillCells_stable_of_good (cf : Obj) (k : String) (u : JsonValue)
    (hu : getField cf k = some u) (hg : u = .str "" ∨ jTruthy u = true) :
    getField (fillCells cf) k = some u :=
  fillFold_stable_of_good matrixKeys cf k u hu hg

theorem strVal_good (x : String) :
    JsonValue.str (jsOrStr x "") = .str "" ∨
      jTruthy (.str (jsOrStr x "")) = true := by
  unfold jsOrStr
  split
  · rename_i hx
    right
    simp [jTruthy, hx]
  · left
    rfl

theorem migrateCell_val_good (o : Option JsonValue) (v : String)
    (h : migrateCell o = some v) :
    JsonValue.str v = .str "" ∨ jTruthy (.str v) = true := by
  unfold migrateCell at h
  split at h
  · cases h
    exact Or.inl rfl
  · cases h
    exact Or.inl rfl
  · cases h
    exact strVal_good _
  · exact Option.noConfusion h

theorem parenYearAt_length (cs ds : List Char)
    (h : parenYearAt cs = some ds) : ds.length = 4 := by
  unfold parenYearAt at h
  split at h
  · split at h
    · cases h
      rfl
    · exact Option.noConfusion h
  · exact Option.noConfusion h

theorem findYear_go_length (cs : List Char) (y : String)
    (h : findYear.go cs = some y) : y.length = 4 := by
  induction cs with
  | nil => exact Option.noConfusion h
  | cons c rest ih =>
      unfold findYear.go at h
      split at h
      · rename_i ds hds
        cases h
        exact parenYearAt_length _ _ hds
      · exact ih h

theorem yearOf_length (s : String) : ((findYear s).getD "2023").length = 4 := by
  cases hf : findYear s with
  | none => rfl
  | some y => exact findYear_go_length s.data y hf

theorem str_ne_of_length (a b : String) (h : a.length ≠ b.length) : a ≠ b :=
  fun he => h (congrArg String.length he)

theorem append_ne_of_total_length (p y q : String)
    (h : p.length + y.length ≠ q.length) : p ++ y ≠ q := by
  intro he
  apply h
  have := congrArg String.length he
  rwa [String.length_append] at this

theorem append_ne_append_left (p q y : String) (hlen : p.length = q.length)
    (hpq : p ≠ q) : p ++ y ≠ q ++ y := by
  intro he
  apply hpq
  have hd : p.data ++ y.data = q.data ++ y.data := congrArg String.data he
  exact congrArg String.mk (List.append_inj hd hlen).1

/-! ## Claim theorems -/

/-- C6: normalization is idempotent.  For every record on which the
normalization post-processing succeeds (and every criteria list whose ids
do not collide with the four injected field names, which holds for all
criteria `esg-criteria.js` produces), applying it a second time to the
already-normalized record changes nothing: no duplicate placeholder is
inserted and an already year-keyed carbon matrix is not re-migrated. -/
theorem claim_C6_normalize_idempotent
    (industry urlType url : String) (criteria : List Criterion) (r r' : Obj)
    (hdisj : ∀ c ∈ criteria, c.id ≠ "industry" ∧ c.id ≠ "sourceType" ∧
      c.id ≠ "companyDetails" ∧ c.id ≠ "carbonFootprint")
    (h : normalizeRecord industry urlType url criteria r = some r') :
    normalizeRecord industry urlType url criteria r' = some r' := by
  obtain ⟨d3, d4, hcd, hcb, hcrit⟩ :=
    normalizeRecord_parts industry urlType url criteria r r' h
  have hind : getField r' "industry" = some (.str industry) := by
    rw [hcrit]
    rw [stepCriteria_get_ne criteria d4 "industry" (fun c hc => (hdisj c hc).1)]
    rw [stepCarbon_get_ne d3 d4 "industry" (by decide) hcb]
    rw [stepCompanyDetails_get_ne url _ d3 "industry" (by decide) hcd]
    rw [getField_setField_ne _ "sourceType" "industry" _ (by decide)]
    exact getField_setField_self r "industry" (.str industry)
  have hsrc : getField r' "sourceType" = some (.str urlType) := by
    rw [hcrit]
    rw [stepCriteria_get_ne criteria d4 "sourceType" (fun c hc => (hdisj c hc).2.1)]
    rw [stepCarbon_get_ne d3 d4 "sourceType" (by decide) hcb]
    rw [stepCompanyDetails_get_ne url _ d3 "sourceType" (by decide) hcd]
    exact getField_setField_self _ "sourceType" (.str urlType)
  obtain ⟨vcd, hvcd3, hvcdGood⟩ := stepCompanyDetails_cd url _ d3 hcd
  have hvcd4 : getField d4 "companyDetails" = some vcd := by
    rw [stepCarbon_get_ne d3 d4 "companyDetails" (by decide) hcb]
    exact hvcd3
  have hvcd : getField r' "companyDetails" = some vcd := by
    rw [hcrit]
    rw [stepCriteria_truthy_stable criteria d4 "companyDetails"
      (by rw [hvcd4]; exact cdGood_truthy url vcd hvcdGood)]
    exact hvcd4
  obtain ⟨vcf, hvcf4, hvcfGood⟩ := stepCarbon_cf d3 d4 hcb
  have hvcf : getField r' "carbonFootprint" = some vcf := by
    rw [hcrit]
    rw [stepCriteria_truthy_stable criteria d4 "carbonFootprint"
      (by rw [hvcf4]; exact cfGood_truthy vcf hvcfGood)]
    exact hvcf4
  have hcritr : ∀ c ∈ criteria, jTruthyOpt (getField r' c.id) = true := by
    intro c hc
    rw [hcrit]
    exact stepCriteria_truthy_mem criteria d4 c hc
  unfold normalizeRecord
  dsimp only
  rw [setField_eq_of_get r' "industry" (.str industry) hind]
  rw [setField_eq_of_get r' "sourceType" (.str urlType) hsrc]
  rw [stepCompanyDetails_of_good url r' vcd hvcd hvcdGood]
  rw [Option.some_bind]
  rw [stepCarbon_of_good r' vcf hvcf hvcfGood]
  rw [Option.map_some']
  rw [stepCriteria_id_of_truthy criteria r' hcritr]

/-- C1 (amended): for every successfully normalized record, every required
criterion id is present in the output with a defined, truthy value; and
whenever the criterion was absent (or falsy) in the parsed record — and its
id is none of the four injected field names, with no duplicate ids — the
inserted value is exactly the placeholder
`{actions: ["# No specific actions found for <name>"]}`.  The code does
*not* force a non-empty `actions` list on criteria already present in the
parsed record (see the counterexample). -/
theorem claim_C1_required_criteria
    (industry urlType url : String) (criteria : List Criterion) (r r' : Obj)
    (h : normalizeRecord industry urlType url criteria r = some r') :
    (∀ c ∈ criteria, ∃ v, getField r' c.id = some v ∧ jTruthy v = true) ∧
    ((criteria.map Criterion.id).Nodup →
      ∀ c ∈ criteria,
        c.id ≠ "industry" → c.id ≠ "sourceType" → c.id ≠ "companyDetails" →
        c.id ≠ "carbonFootprint" →
        jTruthyOpt (getField r c.id) = false →
        getField r' c.id = some (criterionPlaceholder c)) := by
  obtain ⟨d3, d4, hcd, hcb, hcrit⟩ :=
    normalizeRecord_parts industry urlType url criteria r r' h
  constructor
  · intro c hc
    rw [hcrit]
    exact truthyOpt_exists _ (stepCriteria_truthy_mem criteria d4 c hc)
  · intro hnd c hc h1 h2 h3 h4 hfalsy
    have hval : getField d4 c.id = getField r c.id := by
      rw [stepCarbon_get_ne d3 d4 c.id h4 hcb]
      rw [stepCompanyDetails_get_ne url _ d3 c.id h3 hcd]
      rw [getField_setField_ne _ "sourceType" c.id _ h2]
      exact getField_setField_ne r "industry" c.id _ h1
    rw [hcrit]
    exact stepCriteria_placeholder criteria d4 c hnd hc (by rw [hval]; exact hfalsy)

/-- C1 counterexample: a parsed record in which the required criterion
`energy_efficiency` is already present with an *empty* `actions` list is
normalized successfully and keeps the empty list — refuting the claim that
the value under every required criterion id has a non-empty `actions`
list. -/
theorem claim_C1_counterexample :
    (normalizeRecord "manufacturing" "pdf" "http://x.pdf"
        [⟨"energy_efficiency", "Energy efficiency"⟩]
        [("energy_efficiency", .obj [("actions", .arr [])])]).map
      (fun o => getField o "energy_efficiency") =
      some (some (.obj [("actions", .arr ([] : List JsonValue))])) := by
  rfl

/-- C1 witness: the amended theorem applied to the empty parsed record with
the single criterion `energy_efficiency`. -/
theorem claim_C1_witness :
    (∀ c ∈ [(⟨"energy_efficiency", "Energy efficiency"⟩ : Criterion)],
      ∃ v, getField witnessNormalized1 c.id = some v ∧ jTruthy v = true) ∧
    (([(⟨"energy_efficiency", "Energy efficiency"⟩ : Criterion)].map
        Criterion.id).Nodup →
      ∀ c ∈ [(⟨"energy_efficiency", "Energy efficiency"⟩ : Criterion)],
        c.id ≠ "industry" → c.id ≠ "sourceType" → c.id ≠ "companyDetails" →
        c.id ≠ "carbonFootprint" →
        jTruthyOpt (getField ([] : Obj) c.id) = false →
        getField witnessNormalized1 c.id = some (criterionPlaceholder c)) :=
  claim_C1_required_criteria "manufacturing" "pdf" "https://exam.ple/r.pdf"
    [⟨"energy_efficiency", "Energy efficiency"⟩] [] witnessNormalized1 (by rfl)

/-- C2 (amended): for every successfully normalized record, the
`carbonFootprint` field is an object in which each of the twelve matrix
keys `{scope1,scope2,scope3,total} × {2022,2023,2024}` is present with a
defined value that is either the empty string or truthy.  The code does
*not* delete keys outside the matrix, and a truthy non-string parsed cell
is kept as-is (see the counterexample). -/
theorem claim_C2_carbon_matrix
    (industry urlType url : String) (criteria : List Criterion) (r r' : Obj)
    (h : normalizeRecord industry urlType url criteria r = some r') :
    ∃ Z, getField r' "carbonFootprint" = some (.obj Z) ∧
      ∀ k ∈ matrixKeys, ∃ u, getField Z k = some u ∧
        (u = .str "" ∨ jTruthy u = true) := by
  obtain ⟨d3, d4, hcd, hcb, hcrit⟩ :=
    normalizeRecord_parts industry urlType url criteria r r' h
  obtain ⟨vcf, hvcf4, hvcfGood⟩ := stepCarbon_cf d3 d4 hcb
  obtain ⟨Z, rfl, hguard, hcells⟩ := hvcfGood
  refine ⟨Z, ?_, hcells⟩
  rw [hcrit]
  rw [stepCriteria_truthy_stable criteria d4 "carbonFootprint"
    (by rw [hvcf4]; rfl)]
  exact hvcf4

/-- C2 counterexample: a parsed record whose `carbonFootprint` holds one
extra key `foo` with the JSON number `1` normalizes successfully to a
matrix that still contains `foo` (a thirteenth key) with a non-string
value — refuting both "exactly the twelve keys" and "every value is a
string". -/
theorem claim_C2_counterexample :
    (normalizeRecord "m" "pdf" "u" []
        [("carbonFootprint", .obj [("foo", .num "1")])]).map
      (fun o => getField o "carbonFootprint") =
      some (some (.obj (("foo", .num "1") :: defaultCarbon))) := by
  rfl

/-- C2 witness: the amended theorem applied to the empty parsed record. -/
theorem claim_C2_witness :
    ∃ Z, getField witnessNormalized1 "carbonFootprint" = some (.obj Z) ∧
      ∀ k ∈ matrixKeys, ∃ u, getField Z k = some u ∧
        (u = .str "" ∨ jTruthy u = true) :=
  claim_C2_carbon_matrix "manufacturing" "pdf" "https://exam.ple/r.pdf"
    [⟨"energy_efficiency", "Energy efficiency"⟩] [] witnessNormalized1 (by rfl)

/-- C6 witness: the idempotence theorem applied to the output of
normalizing the empty parsed record. -/
theorem claim_C6_witness :
    normalizeRecord "manufacturing" "pdf" "https://exam.ple/r.pdf"
      [⟨"energy_efficiency", "Energy efficiency"⟩] witnessNormalized1 =
    some witnessNormalized1 :=
  claim_C6_normalize_idempotent "manufacturing" "pdf" "https://exam.ple/r.pdf"
    [⟨"energy_efficiency", "Energy efficiency"⟩] [] witnessNormalized1
    (by decide) (by rfl)

/-- C5: legacy carbon-matrix migration.  For every successfully normalized
record whose parsed `carbonFootprint` is an object in the legacy flat shape
(`scope1` a nonempty string, `scope1_2023` absent or falsy), the output
matrix holds `scope{1,2,3}_{year}` and `total_{year}` with the
`\((\d{4})\)` token stripped from each value — the year taken from the
first such token in `scope1`, defaulting to `2023` — and all four legacy
keys are deleted, so no legacy key remains in the output. -/
theorem claim_C5_legacy_migration
    (industry urlType url : String) (criteria : List Criterion) (r r' : Obj)
    (cff : Obj) (s1 : String)
    (hcf : getField r "carbonFootprint" = some (.obj cff))
    (hs1 : getField cff "scope1" = some (.str s1))
    (hs1t : s1 ≠ "")
    (hno : jTruthyOpt (getField cff "scope1_2023") = false)
    (h : normalizeRecord industry urlType url criteria r = some r') :
    ∃ Z, getField r' "carbonFootprint" = some (.obj Z) ∧
      getField Z ("scope1_" ++ ((findYear s1).getD "2023")) = some (JsonValue.str (jsOrStr (stripYear s1) "")) ∧
      (∀ v2, migrateCell (getField cff "scope2") = some v2 →
        getField Z ("scope2_" ++ ((findYear s1).getD "2023")) = some (.str v2)) ∧
      (∀ v3, migrateCell (getField cff "scope3") = some v3 →
        getField Z ("scope3_" ++ ((findYear s1).getD "2023")) = some (.str v3)) ∧
      (∀ vt, migrateCell (getField cff "total") = some vt →
        getField Z ("total_" ++ ((findYear s1).getD "2023")) = some (.str vt)) ∧
      getField Z "scope1" = none ∧ getField Z "scope2" = none ∧
      getField Z "scope3" = none ∧ getField Z "total" = none := by
  obtain ⟨d3, d4, hcd, hcb, hcrit⟩ :=
    normalizeRecord_parts industry urlType url criteria r r' h
  have hcf3 : getField d3 "carbonFootprint" = some (.obj cff) := by
    rw [stepCompanyDetails_get_ne url _ d3 "carbonFootprint" (by decide) hcd]
    rw [getField_setField_ne _ "sourceType" _ _ (by decide)]
    rw [getField_setField_ne _ "industry" _ _ (by decide)]
    exact hcf
  have hY : ((findYear s1).getD "2023").length = 4 := yearOf_length s1
  have nK12 : ("scope1_" ++ ((findYear s1).getD "2023")) ≠ ("scope2_" ++ ((findYear s1).getD "2023")) := append_ne_append_left _ _ _ (by decide) (by decide)
  have nK13 : ("scope1_" ++ ((findYear s1).getD "2023")) ≠ ("scope3_" ++ ((findYear s1).getD "2023")) := append_ne_append_left _ _ _ (by decide) (by decide)
  have nK23 : ("scope2_" ++ ((findYear s1).getD "2023")) ≠ ("scope3_" ++ ((findYear s1).getD "2023")) := append_ne_append_left _ _ _ (by decide) (by decide)
  have nK14 : ("scope1_" ++ ((findYear s1).getD "2023")) ≠ ("total_" ++ ((findYear s1).getD "2023")) := by apply str_ne_of_length; simp only [String.length_append, hY]; decide
  have nK24 : ("scope2_" ++ ((findYear s1).getD "2023")) ≠ ("total_" ++ ((findYear s1).getD "2023")) := by apply str_ne_of_length; simp only [String.length_append, hY]; decide
  have nK34 : ("scope3_" ++ ((findYear s1).getD "2023")) ≠ ("total_" ++ ((findYear s1).getD "2023")) := by apply str_ne_of_length; simp only [String.length_append, hY]; decide
  have n1p1 : ("scope1_" ++ ((findYear s1).getD "2023")) ≠ "scope1" := by apply str_ne_of_length; simp only [String.length_append, hY]; decide
  have n1p2 : ("scope1_" ++ ((findYear s1).getD "2023")) ≠ "scope2" := by apply str_ne_of_length; simp only [String.length_append, hY]; decide
  have n1p3 : ("scope1_" ++ ((findYear s1).getD "2023")) ≠ "scope3" := by apply str_ne_of_length; simp only [String.length_append, hY]; decide
  have n1p4 : ("scope1_" ++ ((findYear s1).getD "2023")) ≠ "total" := by apply str_ne_of_length; simp only [String.length_append, hY]; decide
  have n2p1 : ("scope2_" ++ ((findYear s1).getD "2023")) ≠ "scope1" := by apply str_ne_of_length; simp only [String.length_append, hY]; decide
  have n2p2 : ("scope2_" ++ ((findYear s1).getD "2023")) ≠ "scope2" := by apply str_ne_of_length; simp only [String.length_append, hY]; decide
  have n2p3 : ("scope2_" ++ ((findYear s1).getD "2023")) ≠ "scope3" := by apply str_ne_of_length; simp only [String.length_append, hY]; decide
  have n2p4 : ("scope2_" ++ ((findYear s1).getD "2023")) ≠ "total" := by apply str_ne_of_length; simp only [String.length_append, hY]; decide
  have n3p1 : ("scope3_" ++ ((findYear s1).getD "2023")) ≠ "scope1" := by apply str_ne_of_length; simp only [String.length_append, hY]; decide
  have n3p2 : ("scope3_" ++ ((findYear s1).getD "2023")) ≠ "scope2" := by apply str_ne_of_length; simp only [String.length_append, hY]; decide
  have n3p3 : ("scope3_" ++ ((findYear s1).getD "2023")) ≠ "scope3" := by apply str_ne_of_length; simp only [String.length_append, hY]; decide
  have n3p4 : ("scope3_" ++ ((findYear s1).getD "2023")) ≠ "total" := by apply str_ne_of_length; simp only [String.length_append, hY]; decide
  have n4p1 : ("total_" ++ ((findYear s1).getD "2023")) ≠ "scope1" := by apply str_ne_of_length; simp only [String.length_append, hY]; decide
  have n4p2 : ("total_" ++ ((findYear s1).getD "2023")) ≠ "scope2" := by apply str_ne_of_length; simp only [String.length_append, hY]; decide
  have n4p3 : ("total_" ++ ((findYear s1).getD "2023")) ≠ "scope3" := by apply str_ne_of_length; simp only [String.length_append, hY]; decide
  have n4p4 : ("total_" ++ ((findYear s1).getD "2023")) ≠ "total" := by apply str_ne_of_length; simp only [String.length_append, hY]; decide
  unfold stepCarbon at hcb
  rw [hcf3] at hcb
  unfold carbonValue at hcb
  rw [if_neg (by simp [jTruthyOpt, jTruthy])] at hcb
  dsimp only at hcb
  rw [if_pos (And.intro (by rw [hs1]; simp [jTruthyOpt, jTruthy, hs1t]) hno)] at hcb
  rw [hs1] at hcb
  dsimp only at hcb
  rw [getField_setField_ne cff ("scope1_" ++ ((findYear s1).getD "2023")) "scope2" (JsonValue.str (jsOrStr (stripYear s1) "")) (Ne.symm n1p2)] at hcb
  cases hv2 : migrateCell (getField cff "scope2") with
  | none =>
      rw [hv2] at hcb
      exact Option.noConfusion hcb
  | some v2 =>
      rw [hv2] at hcb
      dsimp only at hcb
      have e3 : getField (setField (setField cff ("scope1_" ++ ((findYear s1).getD "2023")) (JsonValue.str (jsOrStr (stripYear s1) ""))) ("scope2_" ++ ((findYear s1).getD "2023"))
          (JsonValue.str v2)) "scope3" = getField cff "scope3" := by
        rw [getField_setField_ne _ _ _ _ (Ne.symm n2p3)]
        exact getField_setField_ne _ _ _ _ (Ne.symm n1p3)
      rw [e3] at hcb
      cases hv3 : migrateCell (getField cff "scope3") with
      | none =>
          rw [hv3] at hcb
          exact Option.noConfusion hcb
      | some v3 =>
          rw [hv3] at hcb
          dsimp only at hcb
          have e4 : getField (setField (setField (setField cff ("scope1_" ++ ((findYear s1).getD "2023")) (JsonValue.str (jsOrStr (stripYear s1) "")))
              ("scope2_" ++ ((findYear s1).getD "2023")) (JsonValue.str v2)) ("scope3_" ++ ((findYear s1).getD "2023")) (JsonValue.str v3)) "total" =
              getField cff "total" := by
            rw [getField_setField_ne _ _ _ _ (Ne.symm n3p4)]
            rw [getField_setField_ne _ _ _ _ (Ne.symm n2p4)]
            exact getField_setField_ne _ _ _ _ (Ne.symm n1p4)
          rw [e4] at hcb
          cases hvt : migrateCell (getField cff "total") with
          | none =>
              rw [hvt] at hcb
              exact Option.noConfusion hcb
          | some vt =>
              rw [hvt] at hcb
              dsimp only at hcb
              rw [Option.map_some'] at hcb
              have hd4 := Option.some.inj hcb
              subst hd4
              refine ⟨(fillCells (delField (delField (delField (delField (setField (setField (setField (setField cff ("scope1_" ++ ((findYear s1).getD "2023")) (JsonValue.str (jsOrStr (stripYear s1) ""))) ("scope2_" ++ ((findYear s1).getD "2023")) (JsonValue.str v2)) ("scope3_" ++ ((findYear s1).getD "2023")) (JsonValue.str v3)) ("total_" ++ ((findYear s1).getD "2023")) (JsonValue.str vt)) "scope1") "scope2") "scope3") "total")), ?_, ?_, ?_, ?_, ?_, ?_, ?_, ?_, ?_⟩
              · rw [hcrit]
                rw [stepCriteria_truthy_stable criteria _ "carbonFootprint"
                  (by rw [getField_setField_self]; rfl)]
                exact getField_setField_self d3 _ _
              · refine fillCells_stable_of_good _ _ _ ?_ (strVal_good _)
                rw [getField_delField_ne _ _ _ n1p4]
                rw [getField_delField_ne _ _ _ n1p3]
                rw [getField_delField_ne _ _ _ n1p2]
                rw [getField_delField_ne _ _ _ n1p1]
                rw [getField_setField_ne _ _ _ _ nK14]
                rw [getField_setField_ne _ _ _ _ nK13]
                rw [getField_setField_ne _ _ _ _ nK12]
                exact getField_setField_self _ _ _
              · intro v2' hv2'
                obtain rfl := Option.some.inj hv2'
                refine fillCells_stable_of_good _ _ _ ?_
                  (migrateCell_val_good _ _ hv2)
                rw [getField_delField_ne _ _ _ n2p4]
                rw [getField_delField_ne _ _ _ n2p3]
                rw [getField_delField_ne _ _ _ n2p2]
                rw [getField_delField_ne _ _ _ n2p1]
                rw [getField_setField_ne _ _ _ _ nK24]
                rw [getField_setField_ne _ _ _ _ nK23]
                exact getField_setField_self _ _ _
              · intro v3' hv3'
                obtain rfl := Option.some.inj hv3'
                refine fillCells_stable_of_good _ _ _ ?_
                  (migrateCell_val_good _ _ hv3)
                rw [getField_delField_ne _ _ _ n3p4]
                rw [getField_delField_ne _ _ _ n3p3]
                rw [getField_delField_ne _ _ _ n3p2]
                rw [getField_delField_ne _ _ _ n3p1]
                rw [getField_setField_ne _ _ _ _ nK34]
                exact getField_setField_self _ _ _
              · intro vt' hvt'
                obtain rfl := Option.some.inj hvt'
                refine fillCells_stable_of_good _ _ _ ?_
                  (migrateCell_val_good _ _ hvt)
                rw [getField_delField_ne _ _ _ n4p4]
                rw [getField_delField_ne _ _ _ n4p3]
                rw [getField_delField_ne _ _ _ n4p2]
                rw [getField_delField_ne _ _ _ n4p1]
                exact getField_setField_self _ _ _
              · rw [fillCells_get_ne _ _ (by decide)]
                rw [getField_delField_ne _ _ _ (by decide)]
                rw [getField_delField_ne _ _ _ (by decide)]
                rw [getField_delField_ne _ _ _ (by decide)]
                exact getField_delField_self _ _
              · rw [fillCells_get_ne _ _ (by decide)]
                rw [getField_delField_ne _ _ _ (by decide)]
                rw [getField_delField_ne _ _ _ (by decide)]
                exact getField_delField_self _ _
              · rw [fillCells_get_ne _ _ (by decide)]
                rw [getField_delField_ne _ _ _ (by decide)]
                exact getField_delField_self _ _
              · rw [fillCells_get_ne _ _ (by decide)]
                exact getField_delField_self _ _

/-- C5 witness: the specification's migration example
`{scope1: "12.3 t CO2e (2022)", ...}` run through the full
normalization. -/
theorem claim_C5_witness :
    ∃ Z, getField witnessNormalized2 "carbonFootprint" = some (.obj Z) ∧
      getField Z ("scope1_" ++ ((findYear "12.3 t CO2e (2022)").getD "2023")) =
        some (.str (jsOrStr (stripYear "12.3 t CO2e (2022)") "")) ∧
      (∀ v2, migrateCell (getField legacyCarbonExample "scope2") = some v2 →
        getField Z ("scope2_" ++ ((findYear "12.3 t CO2e (2022)").getD "2023")) = some (.str v2)) ∧
      (∀ v3, migrateCell (getField legacyCarbonExample "scope3") = some v3 →
        getField Z ("scope3_" ++ ((findYear "12.3 t CO2e (2022)").getD "2023")) = some (.str v3)) ∧
      (∀ vt, migrateCell (getField legacyCarbonExample "total") = some vt →
        getField Z ("total_" ++ ((findYear "12.3 t CO2e (2022)").getD "2023")) = some (.str vt)) ∧
      getField Z "scope1" = none ∧ getField Z "scope2" = none ∧
      getField Z "scope3" = none ∧ getField Z "total" = none :=
  claim_C5_legacy_migration "m" "pdf" "u" []
    [("carbonFootprint", .obj legacyCarbonExample)] witnessNormalized2
    legacyCarbonExample "12.3 t CO2e (2022)" (by rfl) (by rfl) (by decide)
    (by rfl) (by rfl)

/-- The run of `retryAux` when every attempt fails with an
overload-classified error: the loop keeps retrying until `retryCount`
reaches `maxRetries` inside `isRetryableError`, so it stops after exactly
`maxRetries` attempts with the last error. -/
theorem retryAux_all_overloaded (errs : Nat → JsError) (jit : Nat → Nat)
    (maxRetries : Nat) (hover : ∀ i, isOverloadedError (errs i) = true) :
    ∀ fuel i delay acc, i < maxRetries → maxRetries ≤ i + fuel →
      retryAux (fun n => (Except.error (errs n) : Except JsError Unit)) jit
          maxRetries fuel i delay acc =
        ⟨maxRetries,
          acc.reverse ++ expectedSleeps jit delay (maxRetries - 1 - i) i,
          some (.error (errs (maxRetries - 1)))⟩ := by
  intro fuel
  induction fuel with
  | zero =>
      intro i delay acc hi hf
      omega
  | succ fuel ih =>
      intro i delay acc hi hf
      unfold retryAux
      dsimp only
      by_cases hlast : maxRetries ≤ i + 1
      · have hrf : isRetryableError (errs i) (i + 1) maxRetries = false := by
          unfold isRetryableError
          rw [if_pos hlast]
        rw [if_pos (Or.inr hrf)]
        have hmr0 : maxRetries - 1 - i = 0 := by omega
        have hieq : errs i = errs (maxRetries - 1) := by
          have : i = maxRetries - 1 := by omega
          rw [this]
        have hatt : i + 1 = maxRetries := by omega
        rw [hmr0, hieq, hatt]
        simp [expectedSleeps]
      · have hmi : ¬(maxRetries < i + 1) := by omega
        have hrt : isRetryableError (errs i) (i + 1) maxRetries = true := by
          unfold isRetryableError
          rw [if_neg hlast]
          exact hover i
        rw [if_neg (by
          intro hor
          rcases hor with hx | hx
          · exact hmi hx
          · rw [hrt] at hx
            exact absurd hx (by decide))]
        rw [ih (i + 1) (2 * delay + jit i) (delay :: acc) (by omega) (by omega)]
        have hn : maxRetries - 1 - i = (maxRetries - 1 - (i + 1)) + 1 := by omega
        rw [hn]
        simp [expectedSleeps, List.append_assoc]

theorem expectedSleeps_cons (jit : Nat → Nat) (d n i : Nat) :
    expectedSleeps jit d (n + 1) i =
      d :: expectedSleeps jit (2 * d + jit i) n (i + 1) := rfl

/-- The produced sleep delays are strictly increasing whenever the starting
delay is positive (the jitter only adds). -/
theorem expectedSleeps_chain (jit : Nat → Nat) :
    ∀ (n i d : Nat), 0 < d → (expectedSleeps jit d n i).Chain' (· < ·) := by
  intro n
  induction n with
  | zero =>
      intro i d hd
      exact List.chain'_nil
  | succ n ih =>
      intro i d hd
      rw [expectedSleeps_cons]
      cases n with
      | zero => exact List.chain'_singleton d
      | succ m =>
          rw [expectedSleeps_cons, List.chain'_cons]
          refine ⟨by omega, ?_⟩
          rw [← expectedSleeps_cons]
          exact ih (i + 1) (2 * d + jit i) (by omega)

/-- C3 (amended): when every attempt fails with a rate-limit/overload
error, `retryWithBackoff(fn, maxRetries, initialDelay)` attempts the
operation exactly `maxRetries` times (not `maxRetries + 1`: the redundant
`retryCount >= maxRetries` guard inside `isRetryableError` fires one
iteration early), performs `maxRetries - 1` sleeps whose delays follow
`delay = delay * 2 + jitter` starting from `initialDelay`, strictly
increasing when `initialDelay > 0`, and propagates the error of the last
attempt unchanged. -/
theorem claim_C3_backoff
    (errs : Nat → JsError) (jit : Nat → Nat) (maxRetries initialDelay : Nat)
    (hover : ∀ i, isOverloadedError (errs i) = true)
    (_hjit : ∀ i, jit i < 1000)
    (hmr : 1 ≤ maxRetries) :
    (retryWithBackoff (fun i => (Except.error (errs i) : Except JsError Unit))
        jit maxRetries initialDelay).attempts = maxRetries ∧
    (retryWithBackoff (fun i => (Except.error (errs i) : Except JsError Unit))
        jit maxRetries initialDelay).outcome =
      some (.error (errs (maxRetries - 1))) ∧
    (retryWithBackoff (fun i => (Except.error (errs i) : Except JsError Unit))
        jit maxRetries initialDelay).sleeps =
      expectedSleeps jit initialDelay (maxRetries - 1) 0 ∧
    (0 < initialDelay →
      (retryWithBackoff (fun i => (Except.error (errs i) : Except JsError Unit))
        jit maxRetries initialDelay).sleeps.Chain' (· < ·)) := by
  have key := retryAux_all_overloaded errs jit maxRetries hover (maxRetries + 1)
    0 initialDelay [] (by omega) (by omega)
  unfold retryWithBackoff
  rw [key]
  refine ⟨rfl, rfl, by simp, ?_⟩
  intro hd
  simp only [List.reverse_nil, List.nil_append]
  exact expectedSleeps_chain jit (maxRetries - 1) 0 initialDelay hd

/-- C3 counterexample: with the default parameters `maxRetries = 3`,
`initialDelay = 2000` and an operation that always fails with an
`overloaded_error`, the operation is attempted 3 times — not the
`maxRetries + 1 = 4` times the claim states — with two sleeps. -/
theorem claim_C3_counterexample :
    (retryWithBackoff
        (fun _ => (Except.error ⟨some "overloaded_error", some "overloaded"⟩ :
          Except JsError Unit))
        (fun _ => 0) 3 2000).attempts = 3 ∧
    (retryWithBackoff
        (fun _ => (Except.error ⟨some "overloaded_error", some "overloaded"⟩ :
          Except JsError Unit))
        (fun _ => 0) 3 2000).attempts ≠ 3 + 1 ∧
    (retryWithBackoff
        (fun _ => (Except.error ⟨some "overloaded_error", some "overloaded"⟩ :
          Except JsError Unit))
        (fun _ => 0) 3 2000).sleeps = [2000, 4000] := by
  refine ⟨rfl, by decide, rfl⟩

/-- C3 witness: the amended theorem instantiated at the default
parameters with zero jitter. -/
theorem claim_C3_witness :
    (retryWithBackoff
        (fun i => (Except.error ((fun _ => (⟨some "overloaded_error", none⟩ : JsError)) i) :
          Except JsError Unit))
        (fun _ => 0) 3 2000).attempts = 3 ∧
    (retryWithBackoff
        (fun i => (Except.error ((fun _ => (⟨some "overloaded_error", none⟩ : JsError)) i) :
          Except JsError Unit))
        (fun _ => 0) 3 2000).outcome =
      some (.error ((fun _ => (⟨some "overloaded_error", none⟩ : JsError)) (3 - 1))) ∧
    (retryWithBackoff
        (fun i => (Except.error ((fun _ => (⟨some "overloaded_error", none⟩ : JsError)) i) :
          Except JsError Unit))
        (fun _ => 0) 3 2000).sleeps =
      expectedSleeps (fun _ => 0) 2000 (3 - 1) 0 ∧
    (0 < 2000 →
      (retryWithBackoff
        (fun i => (Except.error ((fun _ => (⟨some "overloaded_error", none⟩ : JsError)) i) :
          Except JsError Unit))
        (fun _ => 0) 3 2000).sleeps.Chain' (· < ·)) :=
  claim_C3_backoff (fun _ => ⟨some "overloaded_error", none⟩) (fun _ => 0) 3 2000
    (fun _ => (by decide :
      isOverloadedError ⟨some "overloaded_error", none⟩ = true))
    (fun _ => (by decide : (0 : Nat) < 1000)) (by decide)

/-- C8: an error that carries no rate-limit/overload signal (no
`overloaded_error` type tag and no `429`/`overloaded`/`rate limit`
substring in its message — an authentication error, say) is propagated to
the caller unchanged after the first attempt, with zero sleeps and zero
retries. -/
theorem claim_C8_nonretryable {α : Type} (fn : Nat → Except JsError α)
    (jit : Nat → Nat) (maxRetries initialDelay : Nat) (e : JsError)
    (h0 : fn 0 = .error e) (hnon : isOverloadedError e = false) :
    retryWithBackoff fn jit maxRetries initialDelay =
      ⟨1, [], some (.error e)⟩ := by
  have hr : isRetryableError e 1 maxRetries = false := by
    unfold isRetryableError
    split
    · rfl
    · exact hnon
  unfold retryWithBackoff
  unfold retryAux
  rw [h0]
  dsimp only
  simp only [Nat.zero_add]
  rw [if_pos (Or.inr hr)]
  rfl

/-- C8 witness: an authentication error (message `invalid x-api-key`) is
surfaced unchanged after one attempt with no sleeps. -/
theorem claim_C8_witness :
    retryWithBackoff
        (fun _ => (Except.error ⟨some "authentication_error",
          some "invalid x-api-key"⟩ : Except JsError Unit))
        (fun _ => 0) 3 2000 =
      ⟨1, [], some (.error ⟨some "authentication_error",
        some "invalid x-api-key"⟩)⟩ :=
  claim_C8_nonretryable
    (fun _ => (Except.error ⟨some "authentication_error",
      some "invalid x-api-key"⟩ : Except JsError Unit))
    (fun _ => 0) 3 2000
    ⟨some "authentication_error", some "invalid x-api-key"⟩ (by rfl) (by decide)

/-! ## The parse-failure fallback record and `parseJSON` failure shape -/

theorem fallbackFold_get_ne (cs : List Criterion) (base : Obj) (k : String)
    (h : ∀ c ∈ cs, c.id ≠ k) :
    getField (cs.foldl (fun acc c => setField acc c.id (fallbackPlaceholder c))
      base) k = getField base k := by
  induction cs generalizing base with
  | nil => rfl
  | cons c rest ih =>
      show getField (rest.foldl _ (setField base c.id (fallbackPlaceholder c))) k = _
      rw [ih (setField base c.id (fallbackPlaceholder c))
        (fun c' hc' => h c' (List.mem_cons_of_mem _ hc'))]
      exact getField_setField_ne base c.id k _
        (Ne.symm (h c (List.mem_cons_self _ _)))

theorem fallbackFold_get_mem (cs : List Criterion) (base : Obj) (c : Criterion)
    (hnd : (cs.map Criterion.id).Nodup) (hc : c ∈ cs) :
    getField (cs.foldl (fun acc c => setField acc c.id (fallbackPlaceholder c))
      base) c.id = some (fallbackPlaceholder c) := by
  induction cs generalizing base with
  | nil => cases hc
  | cons c0 rest ih =>
      rcases List.mem_cons.mp hc with rfl | hmem
      · show getField (rest.foldl _ (setField base c.id (fallbackPlaceholder c)))
          c.id = _
        have hne : ∀ c' ∈ rest, c'.id ≠ c.id := by
          intro c' hc' he
          exact (List.nodup_cons.mp hnd).1 (he ▸ List.mem_map_of_mem Criterion.id hc')
        rw [fallbackFold_get_ne rest _ c.id hne]
        exact getField_setField_self base c.id _
      · exact ih (setField base c0.id (fallbackPlaceholder c0))
          (List.nodup_cons.mp hnd).2 hmem

/-- C4 (amended): `parseJSON` never throws — for every input it returns
either a success object or the failure object whose `originalText` is the
first 500 characters of the input *followed by `"..."`* (the claim's
"first 500 characters" misses the appended ellipsis); and on total parse
failure the extraction path returns the terminal fallback record (status
`extraction_failed`, explicit `extractionError`, one placeholder per
criterion, raw text truncated to 1000 characters plus `"..."`) instead of
raising. -/
theorem claim_C4_parse_failure
    (companyId name url industry sourceType t0 : String)
    (criteria : List Criterion) (isp cx : Bool) (xmlResult : Option JsonValue) :
    (∀ t : String, (∃ d strat, parseJSON t = .ok d strat) ∨
      ∃ m, parseJSON t = .fail m (jsTake t 500 ++ "...")) ∧
    (runCascade isp cx xmlResult t0 = none →
      processResponse companyId name url industry sourceType criteria isp cx
          xmlResult t0 =
        .failedParse (parseFailureReturn companyId name url industry
          sourceType criteria t0)) ∧
    (parseFailureReturn companyId name url industry sourceType criteria
        t0).status = "extraction_failed" ∧
    (parseFailureReturn companyId name url industry sourceType criteria
        t0).error = "Failed to parse JSON from Claude response" ∧
    getField (parseFailureReturn companyId name url industry sourceType
        criteria t0).fallback "rawResponse" =
      some (.str (jsTake t0 1000 ++ "...")) ∧
    ((∀ c ∈ criteria, c.id ≠ "extractionError") →
      getField (parseFailureReturn companyId name url industry sourceType
          criteria t0).fallback "extractionError" =
        some (.str "Failed to parse Claude's response into valid JSON format")) ∧
    ((criteria.map Criterion.id).Nodup →
      ∀ c ∈ criteria, c.id ≠ "rawResponse" →
        getField (parseFailureReturn companyId name url industry sourceType
            criteria t0).fallback c.id = some (fallbackPlaceholder c)) := by
  refine ⟨?_, ?_, rfl, rfl, ?_, ?_, ?_⟩
  · intro t
    unfold parseJSON
    split
    · exact Or.inl ⟨_, _, rfl⟩
    · dsimp only
      split
      · split
        · exact Or.inl ⟨_, _, rfl⟩
        · exact Or.inr ⟨_, rfl⟩
      · split
        · split
          · exact Or.inl ⟨_, _, rfl⟩
          · exact Or.inr ⟨_, rfl⟩
        · split
          · split
            · exact Or.inl ⟨_, _, rfl⟩
            · exact Or.inr ⟨_, rfl⟩
          · exact Or.inr ⟨_, rfl⟩
  · intro hc
    unfold processResponse
    rw [hc]
  · unfold parseFailureReturn fallbackData
    dsimp only
    exact getField_setField_self _ _ _
  · intro hne
    unfold parseFailureReturn fallbackData
    dsimp only
    rw [getField_setField_ne _ _ _ _ (by decide)]
    rw [fallbackFold_get_ne criteria _ "extractionError" hne]
    rfl
  · intro hnd c hcm hraw
    unfold parseFailureReturn fallbackData
    dsimp only
    rw [getField_setField_ne _ _ _ _ hraw]
    exact fallbackFold_get_mem criteria _ c hnd hcm

set_option maxRecDepth 4000 in
/-- C4 counterexample: on the garbled input `hello world` every strategy
fails and `originalText` is `"hello world..."`, which is not the first 500
characters of the input (`"hello world"`): `substring(0, 500)` is followed
by an appended `"..."`. -/
theorem claim_C4_counterexample :
    parseJSON "hello world" =
      .fail "No JSON pattern found in the response" "hello world..." ∧
    "hello world..." ≠ "hello world" := by
  exact ⟨rfl, by decide⟩

/-- C4 witness: the amended theorem at the garbled input `hello world`
with one criterion. -/
theorem claim_C4_witness :
    (∀ t : String, (∃ d strat, parseJSON t = .ok d strat) ∨
      ∃ m, parseJSON t = .fail m (jsTake t 500 ++ "...")) ∧
    (runCascade false false none "hello world" = none →
      processResponse "c1" "ACME" "u" "m" "pdf"
          [⟨"energy_efficiency", "Energy efficiency"⟩] false false
          none "hello world" =
        .failedParse (parseFailureReturn "c1" "ACME" "u" "m" "pdf"
          [⟨"energy_efficiency", "Energy efficiency"⟩] "hello world")) ∧
    (parseFailureReturn "c1" "ACME" "u" "m" "pdf"
        [⟨"energy_efficiency", "Energy efficiency"⟩] "hello world").status =
      "extraction_failed" ∧
    (parseFailureReturn "c1" "ACME" "u" "m" "pdf"
        [⟨"energy_efficiency", "Energy efficiency"⟩] "hello world").error =
      "Failed to parse JSON from Claude response" ∧
    getField (parseFailureReturn "c1" "ACME" "u" "m" "pdf"
        [⟨"energy_efficiency", "Energy efficiency"⟩] "hello world").fallback
        "rawResponse" =
      some (.str (jsTake "hello world" 1000 ++ "...")) ∧
    ((∀ c ∈ [(⟨"energy_efficiency", "Energy efficiency"⟩ : Criterion)],
        c.id ≠ "extractionError") →
      getField (parseFailureReturn "c1" "ACME" "u" "m" "pdf"
          [⟨"energy_efficiency", "Energy efficiency"⟩] "hello world").fallback
          "extractionError" =
        some (.str "Failed to parse Claude's response into valid JSON format")) ∧
    (([(⟨"energy_efficiency", "Energy efficiency"⟩ : Criterion)].map
        Criterion.id).Nodup →
      ∀ c ∈ [(⟨"energy_efficiency", "Energy efficiency"⟩ : Criterion)],
        c.id ≠ "rawResponse" →
        getField (parseFailureReturn "c1" "ACME" "u" "m" "pdf"
            [⟨"energy_efficiency", "Energy efficiency"⟩] "hello world").fallback
            c.id = some (fallbackPlaceholder c)) :=
  claim_C4_parse_failure "c1" "ACME" "u" "m" "pdf" "hello world"
    [⟨"energy_efficiency", "Energy efficiency"⟩] false false none

/-- Every company kept as valid by the batch-validation loop has a URL
classified `pdf`. -/
lemma partitionBatch_valid_pdf (p : String → Bool) :
    ∀ cs : List Company, ∀ c ∈ (partitionBatch p cs).1,
      determineUrlType p c.url = .pdf := by
  intro cs
  induction cs with
  | nil => intro c hc; cases hc
  | cons c0 rest ih =>
      intro c hc
      rw [partitionBatch] at hc
      cases hd : determineUrlType p c0.url with
      | unknown => rw [hd] at hc; dsimp only at hc; exact ih c hc
      | website => rw [hd] at hc; dsimp only at hc; exact ih c hc
      | pdf =>
          rw [hd] at hc; dsimp only at hc
          rcases List.mem_cons.mp hc with rfl | hm
          · exact hd
          · exact ih c hm

/-- Every valid company comes from the submitted list. -/
lemma partitionBatch_valid_mem (p : String → Bool) :
    ∀ cs : List Company, ∀ c ∈ (partitionBatch p cs).1, c ∈ cs := by
  intro cs
  induction cs with
  | nil => intro c hc; cases hc
  | cons c0 rest ih =>
      intro c hc
      rw [partitionBatch] at hc
      cases hd : determineUrlType p c0.url with
      | unknown => rw [hd] at hc; dsimp only at hc
                   exact List.mem_cons_of_mem c0 (ih c hc)
      | website => rw [hd] at hc; dsimp only at hc
                   exact List.mem_cons_of_mem c0 (ih c hc)
      | pdf =>
          rw [hd] at hc; dsimp only at hc
          rcases List.mem_cons.mp hc with rfl | hm
          · exact List.mem_cons_self c rest
          · exact List.mem_cons_of_mem c0 (ih c hm)

/-- Every submitted company whose URL is not classified `pdf` gets a
skip entry with status `extraction_skipped` and the reason fixed by its
URL class. -/
lemma partitionBatch_skipped (p : String → Bool) :
    ∀ cs : List Company, ∀ c ∈ cs, determineUrlType p c.url ≠ .pdf →
      ∃ s ∈ (partitionBatch p cs).2, s.company = c ∧
        s.status = "extraction_skipped" ∧
        s.message = (if determineUrlType p c.url = .website then
            "Websites not supported in batch mode"
          else "URL does not appear to be a valid PDF or website") := by
  intro cs
  induction cs with
  | nil => intro c hc; cases hc
  | cons c0 rest ih =>
      intro c hc hnp
      rw [partitionBatch]
      rcases List.mem_cons.mp hc with rfl | hm
      · cases hd : determineUrlType p c.url with
        | unknown =>
            refine ⟨⟨c, "extraction_skipped",
              "URL does not appear to be a valid PDF or website"⟩, ?_, rfl, rfl, ?_⟩
            · dsimp only; exact List.mem_cons_self _ _
            · rfl
        | website =>
            refine ⟨⟨c, "extraction_skipped",
              "Websites not supported in batch mode"⟩, ?_, rfl, rfl, ?_⟩
            · dsimp only; exact List.mem_cons_self _ _
            · rfl
        | pdf => exact absurd hd hnp
      · obtain ⟨s, hs, h1, h2, h3⟩ := ih c hm hnp
        refine ⟨s, ?_, h1, h2, h3⟩
        cases hd : determineUrlType p c0.url with
        | unknown => dsimp only; exact List.mem_cons_of_mem _ hs
        | website => dsimp only; exact List.mem_cons_of_mem _ hs
        | pdf => dsimp only; exact hs

/-- Replaying the completions of `l` settles slot `i` at `some (f i)` as
soon as `i` was already settled or occurs in `l`. -/
lemma foldl_update_get {β : Type} (f : Nat → β) (l : List Nat) :
    ∀ (slots : Nat → Option β) (i : Nat),
      (slots i = some (f i) ∨ i ∈ l) →
      l.foldl (fun s j => Function.update s j (some (f j))) slots i =
        some (f i) := by
  induction l with
  | nil =>
      intro slots i h
      rcases h with h | h
      · exact h
      · cases h
  | cons j rest ih =>
      intro slots i h
      rw [List.foldl_cons]
      by_cases hij : i = j
      · subst hij
        exact ih _ i (Or.inl (Function.update_same i (some (f i)) slots))
      · rcases h with h | h
        · refine ih _ i (Or.inl ?_)
          rw [Function.update_noteq hij]
          exact h
        · rcases List.mem_cons.mp h with rfl | hm
          · exact absurd rfl hij
          · exact ih _ i (Or.inr hm)

/-- `Promise.all` over indices whose promises are all settled returns
their values in push order. -/
lemma mapM_runCompletions {β : Type} (g : Nat → Option β) (f : Nat → β) :
    ∀ l : List Nat, (∀ i ∈ l, g i = some (f i)) →
      l.mapM g = some (l.map f) := by
  intro l
  induction l with
  | nil => intro _; rfl
  | cons a rest ih =>
      intro h
      rw [List.mapM_cons, h a (List.mem_cons_self a rest),
        ih (fun i hi => h i (List.mem_cons_of_mem a hi))]
      rfl

/-- C7: when the trimmed response text starts with `{`, ends with `}` and
parses as strict JSON, the cascade (generic path: no industry-specific
flag, no custom XML) answers with strategy 1's direct parse — and its
output cannot be any value other than the standalone object, in particular
not the contents of a fenced code block the text may also carry. -/
theorem claim_C7_cascade_order (xmlResult : Option JsonValue) (t : String)
    (v : JsonValue)
    (hbr : strStarts (jsTrim t) "\x7b" = true)
    (her : strEnds (jsTrim t) "\x7d" = true)
    (hp : jsonParse (jsTrim t) = some v) :
    runCascade false false xmlResult t = some (v, 1) ∧
    ∀ w : JsonValue, w ≠ v →
      (runCascade false false xmlResult t).map Prod.fst ≠ some w := by
  have h1 : runCascade false false xmlResult t = some (v, 1) := by
    unfold runCascade
    dsimp only
    rw [hbr, her]
    rw [hp]
    simp
  refine ⟨h1, ?_⟩
  intro w hw
  rw [h1]
  intro hc
  exact hw (Option.some.inj hc).symm

/-- C7 witness: a response that is standalone JSON *and* contains a fenced
`json` code block holding different JSON (`{"b": 2}`, inside the `note`
string); the cascade returns the standalone object via strategy 1. -/
theorem claim_C7_witness :
    runCascade false false none
        "  \x7b \"a\": \"1\", \"note\": \"\x60\x60\x60json \x7b\\\"b\\\": 2\x7d \x60\x60\x60\" \x7d  " =
      some (.obj [("a", .str "1"),
        ("note", .str "\x60\x60\x60json \x7b\"b\": 2\x7d \x60\x60\x60")], 1) ∧
    ∀ w : JsonValue,
      w ≠ .obj [("a", .str "1"),
        ("note", .str "\x60\x60\x60json \x7b\"b\": 2\x7d \x60\x60\x60")] →
      (runCascade false false none
          "  \x7b \"a\": \"1\", \"note\": \"\x60\x60\x60json \x7b\\\"b\\\": 2\x7d \x60\x60\x60\" \x7d  ").map
          Prod.fst ≠ some w :=
  claim_C7_cascade_order none _ _ rfl rfl rfl

/-- C9: every entry of the batch payload carries the `companyId` of a
submitted company whose URL is classified `pdf`; every valid company is
`pdf`-classified; and every submitted company that is not `pdf`-classified
is excluded from the valid list and carries a skip entry with status
`extraction_skipped` and the explicit reason fixed by its URL class
(`website` vs `unknown`). -/
theorem claim_C9_batch_exclusion (p : String → Bool) (companies : List Company) :
    (∀ r ∈ batchRequests (partitionBatch p companies).1,
      ∃ c ∈ companies, determineUrlType p c.url = .pdf ∧
        r.custom_id = c.companyId) ∧
    (∀ c ∈ (partitionBatch p companies).1, determineUrlType p c.url = .pdf) ∧
    (∀ c ∈ companies, determineUrlType p c.url ≠ .pdf →
      c ∉ (partitionBatch p companies).1 ∧
      ∃ s ∈ (partitionBatch p companies).2, s.company = c ∧
        s.status = "extraction_skipped" ∧
        s.message = (if determineUrlType p c.url = .website then
            "Websites not supported in batch mode"
          else "URL does not appear to be a valid PDF or website")) := by
  refine ⟨?_, partitionBatch_valid_pdf p companies, ?_⟩
  · intro r hr
    obtain ⟨c, hcv, hcid⟩ := List.mem_map.mp hr
    exact ⟨c, partitionBatch_valid_mem p companies c hcv,
      partitionBatch_valid_pdf p companies c hcv, hcid ▸ rfl⟩
  · intro c hc hnp
    exact ⟨fun hv => hnp (partitionBatch_valid_pdf p companies c hv),
      partitionBatch_skipped p companies c hc hnp⟩

/-- C9 witness: one `pdf`, one `website` and one `unknown` company (with
`new URL` always succeeding); the concrete partition and payload are
computed, and the theorem instantiates on the list. -/
theorem claim_C9_witness :
    partitionBatch (fun _ => true) [c9pdf, c9web, c9unk] =
      ([c9pdf],
       [⟨c9web, "extraction_skipped", "Websites not supported in batch mode"⟩,
        ⟨c9unk, "extraction_skipped",
          "URL does not appear to be a valid PDF or website"⟩]) ∧
    batchRequests (partitionBatch (fun _ => true) [c9pdf, c9web, c9unk]).1 =
      [⟨"c1"⟩] ∧
    ((∀ r ∈ batchRequests (partitionBatch (fun _ => true) [c9pdf, c9web, c9unk]).1,
      ∃ c ∈ [c9pdf, c9web, c9unk], determineUrlType (fun _ => true) c.url = .pdf ∧
        r.custom_id = c.companyId) ∧
    (∀ c ∈ (partitionBatch (fun _ => true) [c9pdf, c9web, c9unk]).1,
      determineUrlType (fun _ => true) c.url = .pdf) ∧
    (∀ c ∈ [c9pdf, c9web, c9unk], determineUrlType (fun _ => true) c.url ≠ .pdf →
      c ∉ (partitionBatch (fun _ => true) [c9pdf, c9web, c9unk]).1 ∧
      ∃ s ∈ (partitionBatch (fun _ => true) [c9pdf, c9web, c9unk]).2,
        s.company = c ∧ s.status = "extraction_skipped" ∧
        s.message = (if determineUrlType (fun _ => true) c.url = .website then
            "Websites not supported in batch mode"
          else "URL does not appear to be a valid PDF or website"))) :=
  ⟨by decide, by decide,
   claim_C9_batch_exclusion (fun _ => true) [c9pdf, c9web, c9unk]⟩

/-- C10: whatever order the concurrent invocations complete in (any
permutation of the item indices), reading the promise array back gives the
settled results positionally aligned with the input list. -/
theorem claim_C10_concurrentMap {α β : Type} (items : List α) (f : Nat → β)
    (order : List Nat) (hperm : order.Perm (List.range items.length)) :
    concurrentMapResult items f order =
      some ((List.range items.length).map f) := by
  unfold concurrentMapResult
  refine mapM_runCompletions _ f _ ?_
  intro i hi
  unfold runCompletions
  exact foldl_update_get f order _ i (Or.inr (hperm.mem_iff.mpr hi))

/-- C10 witness: three items completing in the order 2, 0, 1 still yield
the results in input order. -/
theorem claim_C10_witness :
    [2, 0, 1].Perm (List.range (["a", "b", "c"].length)) ∧
    concurrentMapResult ["a", "b", "c"] (fun i => i * 10) [2, 0, 1] =
      some [0, 10, 20] :=
  ⟨by decide,
   claim_C10_concurrentMap ["a", "b", "c"] (fun i => i * 10) [2, 0, 1]
     (by decide)⟩

end ESG
